import Mathlib

/-!
Verification development for the HEPHA abstract-interpretation checker.

The definitions below are shallow embeddings of functions from
`src/checker/src/body_visitor.rs`, `src/checker/src/fixed_point_visitor.rs`,
`src/checker/src/type_visitor.rs` and `src/checker/src/contract_errors.rs`.
Support modules of the repository (`abstract_value.rs`, `environment.rs`,
`path.rs`, `k_limits.rs`, the SMT solver) are not part of the provided
sources; where a definition depends on them it is either parametrised or
modelled from the specification, and is marked as such in its doc comment.
-/

set_option maxHeartbeats 1000000

/-- SPath selectors, from the `PathSelector` enumeration used by
`body_visitor.rs` and `type_visitor.rs` (deref, field, union field, index,
layout, discriminant, tag field, function).  Only the selectors exercised by
the embedded functions are included. -/
inductive Selector where
  | deref
  | field (n : Nat)
  | unionField (caseIndex numCases : Nat)
  | index (n : Nat)
  | layout
  | discriminant
  | tagField
  | function
deriving DecidableEq, Repr

/-- Symbolic paths, from `PathEnum`.  A `HeapBlock` path carries the heap
block value it is rooted in; in the source that value is an abstract value
whose expression is `HeapBlock { abstract_address, is_zeroed }`, flattened
here into the two components. -/
inductive SPath where
  | localVar (ordinal : Nat)
  | parameter (ordinal : Nat)
  | heapBlock (abstractAddress : Nat) (isZeroed : Bool)
  | qualified (qualifier : SPath) (selector : Selector)
deriving DecidableEq, Repr

/-- Modelled from the spec: `is_rooted_by(other)` returns true iff any proper
prefix of the path equals `other` (spec section 3, path invariant (ii);
`path.rs` is not part of the provided sources). -/
def SPath.isRootedBy : SPath → SPath → Bool
  | .qualified q _, other => q = other || q.isRootedBy other
  | _, _ => false

/-- Modelled from the spec: `replace_root(old, new)` re-parents a path tree
(spec section 4.A; `path.rs` is not part of the provided sources). -/
def SPath.replaceRoot (p oldRoot newRoot : SPath) : SPath :=
  if p = oldRoot then newRoot
  else
    match p with
    | .qualified q s => .qualified (q.replaceRoot oldRoot newRoot) s
    | other => other

/-- Provenance of a heap block layout, from `expression.rs::LayoutSource`
as used by `body_visitor.rs` (`Alloc`, `ReAlloc`, `DeAlloc`). -/
inductive LayoutSource where
  | alloc
  | reAlloc
  | deAlloc
deriving DecidableEq, Repr

/-- Expression types, restricted to the tags the embedded functions inspect. -/
inductive ExprType where
  | bool
  | i128
  | u128
  | thinPointer
  | nonPrimitive
  | other
deriving DecidableEq, Repr

/-- Abstract values, a restriction of `Expression` from `expression.rs` (not
under the provided sources) to the constructors inspected by the embedded
functions of `body_visitor.rs`: integer and boolean constants, symbolic
booleans with conjunction/disjunction/negation (for entry conditions),
references, typed unknowns (`Variable`), heap blocks, heap block layouts and
pointer offsets.  `unknownVal` stands for any expression whose boolean or
integer value is not known to the abstract domains. -/
inductive SValue where
  | intConst (n : Int)
  | boolConst (b : Bool)
  | boolVar (n : Nat)
  | andE (l r : SValue)
  | orE (l r : SValue)
  | notE (e : SValue)
  | reference (p : SPath)
  | varVal (p : SPath) (t : ExprType)
  | heapBlockVal (abstractAddress : Nat) (isZeroed : Bool)
  | heapBlockLayout (length alignment : SValue) (source : LayoutSource)
  | offsetE (left right : SValue)
  | unknownVal
deriving DecidableEq, Repr

/-- Modelled from the spec: `as_bool_if_known` yields the value of a
compile-time boolean constant and nothing else (`abstract_value.rs` is not
part of the provided sources). -/
def SValue.asBoolIfKnown : SValue → Option Bool
  | .boolConst b => some b
  | _ => none

/-- Modelled from the spec: `greater_or_equal` on compile-time integer
constants folds to a boolean constant; anything else is undecided. -/
def SValue.greaterOrEqual : SValue → SValue → SValue
  | .intConst a, .intConst b => .boolConst (decide (b ≤ a))
  | _, _ => .unknownVal

/-- Modelled from the spec: `less_or_equal` on compile-time integer constants
folds to a boolean constant; anything else is undecided. -/
def SValue.lessOrEqual : SValue → SValue → SValue
  | .intConst a, .intConst b => .boolConst (decide (a ≤ b))
  | _, _ => .unknownVal

/-- Modelled from the spec: `addition` on compile-time integer constants
folds; anything else is undecided. -/
def SValue.addition : SValue → SValue → SValue
  | .intConst a, .intConst b => .intConst (a + b)
  | _, _ => .unknownVal

/-- Modelled from the spec: logical `and` folds boolean constants and
otherwise builds a conjunction. -/
def SValue.andOp : SValue → SValue → SValue
  | .boolConst a, .boolConst b => .boolConst (a && b)
  | l, r => .andE l r

/-- Modelled from the spec: `equals` folds two compile-time integer constants
to a boolean constant, recognises structurally equal operands, and is
otherwise undecided. -/
def SValue.equalsOp : SValue → SValue → SValue
  | .intConst a, .intConst b => .boolConst (decide (a = b))
  | l, r => if l = r then .boolConst true else .unknownVal

/-- Modelled from the spec: syntactic `implies`.  A value implies another if
they are structurally equal, if it is the constant false, or if it is a
conjunction one of whose conjuncts implies the other (`abstract_value.rs` is
not part of the provided sources). -/
def SValue.impliesV : SValue → SValue → Bool
  | e, f =>
    e = f ||
      match e with
      | .andE l r => l.impliesV f || r.impliesV f
      | .boolConst false => true
      | _ => false

/-- Modelled from the spec: syntactic `implies_not`, expressed through
`impliesV` against the negation. -/
def SValue.impliesNotV (e f : SValue) : Bool :=
  e.impliesV (.notE f)

/-- Evaluation of the boolean fragment of `SValue` under an assignment to the
symbolic booleans.  Used to state soundness hypotheses about the abstract
domains and the SMT oracle; non-boolean constructors evaluate to `false`. -/
def SValue.evalB (a : Nat → Bool) : SValue → Bool
  | .boolConst b => b
  | .boolVar n => a n
  | .andE l r => l.evalB a && r.evalB a
  | .orE l r => l.evalB a || r.evalB a
  | .notE e => !e.evalB a
  | _ => false

/-- Outcome of an SMT query, from `smt_solver.rs::SmtResult` (not part of the
provided sources): satisfiable, unsatisfiable, or unknown. -/
inductive SmtResult where
  | satisfiable
  | unsatisfiable
  | unknown
deriving DecidableEq, Repr

/-- Environments as used by `body_visitor.rs`: a map from paths to values and
an entry condition.  The persistent map is modelled as an association list
(first hit wins); exit conditions are not needed by the embedded functions. -/
structure SEnv where
  valueMap : List (SPath × SValue)
  entryCondition : SValue
deriving DecidableEq, Repr

/-- Lookup in the value map (`Environment::value_at`). -/
def SEnv.valueAt (env : SEnv) (p : SPath) : Option SValue :=
  (env.valueMap.find? (fun e => decide (e.1 = p))).map (·.2)

/-- Embeds `lookup_path_and_refine_result` (body_visitor.rs:405) restricted
to the plain map-hit branch: the value stored at the path, defaulting to an
unknown (the source defaults to TOP and then replaces it with a typed
unknown).  Refinement under a symbolic entry condition and the special cases
for computed paths, dereferences and discriminants are outside the scenarios
exercised by the claims, which look up heap block layout entries that are
present in the map. -/
def lookupPathAndRefineResult (env : SEnv) (p : SPath) : SValue :=
  (env.valueAt p).getD .unknownVal

/-- Modelled from the spec: `strong_update_value_at(p, v)` inserts `p ↦ v`
after removing all keys equal to or rooted by `p` (spec section 4.D;
`environment.rs` is not part of the provided sources). -/
def SEnv.strongUpdateValueAt (env : SEnv) (p : SPath) (v : SValue) : SEnv :=
  { env with
    valueMap :=
      (p, v) :: env.valueMap.filter (fun e => !(e.1 = p || e.1.isRootedBy p)) }

/-- Warnings emitted by the embedded checking functions, identified by kind
(the source emits them as `struct_span_warn` diagnostics with fixed message
texts). -/
inductive SWarning where
  | doubleFree
  | layoutMismatch
  | offsetOutsideAllocatedRange
  | unionNotFullyInitialized
deriving DecidableEq, Repr

/-- Embeds `solve_condition` (body_visitor.rs:1678): ask the oracle about the
condition; if satisfiable, also ask about its inversion; report `Some false`
when the condition is unsatisfiable and `Some true` when its negation is.
The oracle is a function argument; the save/restore bracket of the solver
context is implicit in that the argument already carries any asserted
context. -/
def solveCondition (solve : SValue → SmtResult) (condVal : SValue) : Option Bool :=
  match solve condVal with
  | .unsatisfiable => some false
  | .satisfiable =>
    if solve (.notE condVal) = .unsatisfiable then some true else none
  | .unknown => none

/-- Embeds `check_condition_value_and_reachability` (body_visitor.rs:1622).
Returns the decided value of the condition and of the entry condition, each
in `Option Bool`.  When the entry condition is undecided the source asserts
it into the solver before the inner queries; this asserted context is
modelled by conjoining the entry condition onto the oracle's query. -/
def checkConditionValueAndReachability (solve : SValue → SmtResult)
    (entryCondition condVal : SValue) : Option Bool × Option Bool :=
  match entryCondition.asBoolIfKnown with
  | some e =>
    if e ∧ condVal.asBoolIfKnown = none then (solveCondition solve condVal, some e)
    else (condVal.asBoolIfKnown, some e)
  | none =>
    if condVal.asBoolIfKnown.getD false || entryCondition.impliesV condVal then
      (some true, none)
    else if !condVal.asBoolIfKnown.getD true
        || entryCondition.impliesNotV condVal then
      (some false, none)
    else if solve entryCondition = .unsatisfiable then
      (condVal.asBoolIfKnown, some false)
    else if condVal.asBoolIfKnown = none then
      (solveCondition (fun x => solve (.andE entryCondition x)) condVal, none)
    else (condVal.asBoolIfKnown, none)

/-- Embeds `check_offset` (body_visitor.rs:1119).  For an `Offset` value the
range condition `0 ≤ right ∧ right ≤ len + 1` is formed, taking `len` from
the heap block layout at the `Layout` path when the left operand references a
heap block; a warning is produced when the entry condition may hold and the
range condition does not.  Returns the emitted warnings. -/
def checkOffset (solve : SValue → SmtResult) (env : SEnv) (offset : SValue) :
    List SWarning :=
  match offset with
  | .offsetE left right =>
    let geZero := right.greaterOrEqual (.intConst 0)
    let len :=
      match left with
      | .reference p =>
        match p with
        | .heapBlock _ _ =>
          match lookupPathAndRefineResult env (.qualified p .layout) with
          | .heapBlockLayout length _ _ => length
          | _ => left
        | _ => left
      | _ => left
    let leOnePast := right.lessOrEqual (len.addition (.intConst 1))
    let inRange := geZero.andOp leOnePast
    let r := checkConditionValueAndReachability solve env.entryCondition inRange
    if r.2.getD true && !(r.1.getD true) then [.offsetOutsideAllocatedRange]
    else []
  | _ => []

/-- Embeds `check_for_layout_consistency` (body_visitor.rs:1565): a
double-free warning when the old layout's source is already `DeAlloc`, and a
layout-mismatch warning when the lengths and alignments are not known to
match while the entry condition may hold.  Only called during the
error-checking pass. -/
def checkForLayoutConsistency (solve : SValue → SmtResult) (env : SEnv)
    (oldLayout newLayout : SValue) : List SWarning :=
  match oldLayout, newLayout with
  | .heapBlockLayout oldLength oldAlignment oldSource,
    .heapBlockLayout newLength newAlignment _ =>
    let doubleFree : List SWarning :=
      if oldSource = .deAlloc then [.doubleFree] else []
    let layoutsMatch :=
      (oldLength.equalsOp newLength).andOp (oldAlignment.equalsOp newAlignment)
    let r := checkConditionValueAndReachability solve env.entryCondition layoutsMatch
    doubleFree ++
      (if r.2.getD true && !(r.1.getD false) then [.layoutMismatch] else [])
  | _, _ => []

/-- Embeds `purge_abstract_heap_address_from_environment`
(body_visitor.rs:1452).  For a layout path `q.Layout` whose current value is
a heap block layout, every key equal to or rooted by `q` is removed from the
value map, after an optional layout-consistency check during the
error-checking pass.  Returns the new environment and the warnings. -/
def purgeAbstractHeapAddressFromEnvironment (solve : SValue → SmtResult)
    (checkForErrors : Bool) (env : SEnv) (layoutPath : SPath)
    (newLayout : SValue) : SEnv × List SWarning :=
  match layoutPath with
  | .qualified qualifier selector =>
    if selector = .layout then
      let oldLayout := lookupPathAndRefineResult env layoutPath
      match oldLayout with
      | .heapBlockLayout _ _ _ =>
        let warnings :=
          if checkForErrors then
            checkForLayoutConsistency solve env oldLayout newLayout
          else []
        let purgedMap :=
          env.valueMap.filter
            (fun e => !(e.1 = qualifier || e.1.isRootedBy qualifier))
        ({ env with valueMap := purgedMap }, warnings)
      | _ => (env, [])
    else (env, [])
  | _ => (env, [])

/-- Embeds `update_zeroed_flag_for_heap_block_from_environment`
(body_visitor.rs:1499).  When the qualifier of the layout path is a zeroed
heap block, every `Reference` or `Variable` value whose path equals or is
rooted by the block is re-rooted at a heap block with the same abstract
address and a cleared zeroed flag; all other entries are unchanged.  During
the error-checking pass the old and new layouts are first checked for
consistency. -/
def updateZeroedFlagForHeapBlockFromEnvironment (solve : SValue → SmtResult)
    (checkForErrors : Bool) (env : SEnv) (layoutPath : SPath)
    (newLayout : SValue) : SEnv × List SWarning :=
  match layoutPath with
  | .qualified qualifier _ =>
    let warnings :=
      if checkForErrors then
        checkForLayoutConsistency solve env
          (lookupPathAndRefineResult env layoutPath) newLayout
      else []
    match qualifier with
    | .heapBlock abstractAddress isZeroed =>
      if isZeroed then
        let newBlockPath := SPath.heapBlock abstractAddress false
        let updatedMap :=
          env.valueMap.map (fun e =>
            match e.2 with
            | .reference p =>
              if p = qualifier || p.isRootedBy qualifier then
                (e.1, SValue.reference (p.replaceRoot qualifier newBlockPath))
              else e
            | .varVal p t =>
              if p = qualifier || p.isRootedBy qualifier then
                (e.1, SValue.varVal (p.replaceRoot qualifier newBlockPath) t)
              else e
            | _ => e)
        ({ env with valueMap := updatedMap }, warnings)
      else (env, warnings)
    | _ => (env, warnings)
  | _ => (env, [])

/-- Path of a value (`Path::get_as_path`), restricted to heap block values,
the only case arising in `get_new_heap_block`. -/
def SPath.getAsPath : SValue → SPath
  | .heapBlockVal a z => .heapBlock a z
  | _ => .localVar 0

/-- State of the body visitor relevant to heap allocation: the memo table
`heap_addresses` keyed by the current IR location (modelled as a number), the
heap counter of the constant value cache, and the current environment. -/
structure BvHeapState where
  heapAddresses : List (Nat × SValue)
  heapCounter : Nat
  env : SEnv
deriving DecidableEq, Repr

/-- Embeds `get_new_heap_block` (body_visitor.rs:2742).  The heap block for
the current location is taken from the memo table, or freshly created from
the heap counter and inserted; the block's layout path is strongly updated
with an `Alloc` layout.  Returns the block value, its path, and the new
state. -/
def getNewHeapBlock (st : BvHeapState) (currentLocation : Nat)
    (length alignment : SValue) (isZeroed : Bool) :
    (SValue × SPath) × BvHeapState :=
  let blockAndState :=
    match st.heapAddresses.find? (fun e => decide (e.1 = currentLocation)) with
    | some e => (e.2, st)
    | none =>
      let b := SValue.heapBlockVal st.heapCounter isZeroed
      (b, { st with
              heapCounter := st.heapCounter + 1,
              heapAddresses := (currentLocation, b) :: st.heapAddresses })
  let block := blockAndState.1
  let st := blockAndState.2
  let blockPath := SPath.getAsPath block
  let layoutPath := SPath.qualified blockPath .layout
  let layout := SValue.heapBlockLayout length alignment .alloc
  ((block, blockPath), { st with env := st.env.strongUpdateValueAt layoutPath layout })

/-- Rustc primitive integers (`rustc_abi::Integer`). -/
inductive AbiInteger where
  | i8
  | i16
  | i32
  | i64
  | i128
deriving DecidableEq, Repr

/-- Integer representation attribute of an enum
(`rustc_abi::IntegerType`): a fixed-width integer with a signedness, or a
pointer-sized integer with a signedness. -/
inductive IntegerTypeM where
  | fixed (t : AbiInteger) (signed : Bool)
  | pointerSized (signed : Bool)
deriving DecidableEq, Repr

/-- Rustc types, restricted to what the embedded resolver fragments produce:
the primitive integer types, `never`, an enum ADT carrying its optional
`repr` attribute, and a catch-all. -/
inductive RTy where
  | i8
  | i16
  | i32
  | i64
  | i128
  | u8
  | u16
  | u32
  | u64
  | u128
  | isizeTy
  | usizeTy
  | never
  | adtEnum (reprInt : Option IntegerTypeM)
  | otherTy
deriving DecidableEq, Repr

/-- Embeds the repr-to-type mapping of `add_leaf_fields_for`
(body_visitor.rs:1820): the integer type determined by an enum's `repr`
attribute. -/
def reprIntToRustcType : IntegerTypeM → RTy
  | .fixed .i8 true => .i8
  | .fixed .i16 true => .i16
  | .fixed .i32 true => .i32
  | .fixed .i64 true => .i64
  | .fixed .i128 true => .i128
  | .fixed .i8 false => .u8
  | .fixed .i16 false => .u16
  | .fixed .i32 false => .u32
  | .fixed .i64 false => .u64
  | .fixed .i128 false => .u128
  | .pointerSized true => .isizeTy
  | .pointerSized false => .usizeTy

/-- Embeds the `PathSelector::Discriminant` arm of `get_path_rustc_type`
(type_visitor.rs:603): the resolver returns `self.tcx.types.i32` for a
discriminant-qualified path, irrespective of the qualifier's type `t`. -/
def getPathRustcTypeDiscriminant (_t : RTy) : RTy :=
  .i32

/-- Embeds the `def.repr().int = Some` branch of `add_leaf_fields_for`
(body_visitor.rs:1820-1840): the accumulated leaf for an enum with an
integer repr is the discriminant path paired with the repr-determined
integer type. -/
def addLeafFieldsForRepr (path : SPath) (reprInt : IntegerTypeM) :
    List (SPath × RTy) :=
  [(SPath.qualified path .discriminant, reprIntToRustcType reprInt)]

/-- MIR operands, restricted to what `ReentrancyChecker` inspects: a copy or
move of a place (modelled by its local ordinal) or a constant. -/
inductive MOperand where
  | copy (localOrd : Nat)
  | move (localOrd : Nat)
  | constant
deriving DecidableEq, Repr

/-- MIR statement kinds, restricted to what `ReentrancyChecker` inspects: an
assignment to a place (modelled by its local ordinal) or anything else. -/
inductive MStatementKind where
  | assign (destLocal : Nat)
  | otherStmt
deriving DecidableEq, Repr

/-- MIR terminator kinds, restricted to what `ReentrancyChecker` inspects: an
assert whose message is a subtraction-overflow check with the given left
operand, or anything else. -/
inductive MTerminatorKind where
  | assertSubOverflow (leftOperand : MOperand)
  | otherTerm
deriving DecidableEq, Repr

/-- A recorded block statement (contract_errors.rs:7): either a statement or
a terminator kind. -/
inductive MBlockStatement where
  | statement (kind : MStatementKind)
  | terminatorKind (kind : MTerminatorKind)
deriving DecidableEq, Repr

/-- State of `ReentrancyChecker` (contract_errors.rs:13) relevant to
`check`: the per-block statement lists, the recorded lamport-transfer call
sites, and the temporary variable holding the balance.  The hash maps are
modelled as insertion-ordered association lists, so `iter().last()` is the
last recorded entry. -/
structure ReentrancyCheckerM where
  blockStatements : List (Nat × List MBlockStatement)
  functionLamportTransfer : List (Nat × Nat)
  temporaryVariableForBalance : Option Nat
deriving DecidableEq, Repr

/-- Embeds `visit_reentrancy_statement` (contract_errors.rs:100): an
assignment whose destination has the same local as the recorded balance
variable. -/
def visitReentrancyStatement (c : ReentrancyCheckerM) :
    MStatementKind → Bool
  | .assign destLocal =>
    match c.temporaryVariableForBalance with
    | some t => decide (t = destLocal)
    | none => false
  | .otherStmt => false

/-- Embeds `visit_reentrancy_terminator` (contract_errors.rs:85): an assert
for subtraction overflow whose left operand copies the recorded balance
variable's local. -/
def visitReentrancyTerminator (c : ReentrancyCheckerM) :
    MTerminatorKind → Bool
  | .assertSubOverflow (.copy localOrd) =>
    match c.temporaryVariableForBalance with
    | some t => decide (t = localOrd)
    | none => false
  | _ => false

/-- Embeds `ReentrancyChecker::check` (contract_errors.rs:47).  The inner
`break` statements of the source only shortcut iteration once the latched
flag is true, so the accumulation is a pure disjunction over the scanned
statements. -/
def ReentrancyCheckerM.check (c : ReentrancyCheckerM) : Bool :=
  if c.functionLamportTransfer.isEmpty then false
  else
    match c.functionLamportTransfer.getLast? with
    | some (lastBb, _) =>
      c.blockStatements.foldl
        (fun isReentrancy e =>
          if e.1 ≤ lastBb then isReentrancy
          else
            e.2.foldl
              (fun acc bs =>
                match bs with
                | .statement kind => visitReentrancyStatement c kind || acc
                | .terminatorKind kind => visitReentrancyTerminator c kind || acc)
              isReentrancy)
        false
    | none => false

/-- An environment as seen by the fixed-point visitor: the value map and the
entry condition, with both components abstract (their types are parameters,
since `environment.rs` is not part of the provided sources). -/
structure FpEnv (M C : Type) where
  valueMap : M
  entryCondition : C
deriving DecidableEq, Repr

/-- Operations of `environment.rs` used by `fixed_point_visitor.rs`,
parametrised since that module is not part of the provided sources: join,
widen, the subset test, the loop-variant computation and the removal of
entry-condition conjuncts depending on given paths (paths as numbers). -/
structure FpOps (M C : Type) where
  join : FpEnv M C → FpEnv M C → FpEnv M C
  widen : FpEnv M C → FpEnv M C → FpEnv M C
  subset : FpEnv M C → FpEnv M C → Bool
  getLoopVariants : FpEnv M C → FpEnv M C → List Nat
  removeConjunctsThatDependOn : C → List Nat → C

/-- Embeds the in-state computation of `visit_basic_block`
(fixed_point_visitor.rs:155-188) for a loop anchor: `prev` is the previously
stored `in_state[bb]`, `incoming` the state obtained from the predecessors
for this iteration.  At iterations 2 and 3 the previous state is joined
(resp. widened) with the incoming state and the entry condition is
recomputed by dropping conjuncts that depend on the loop variants; from
iteration 4 onward the state is widened and the entry condition is the
previously stored one.  At iterations 0 and 1 the incoming state is used
unchanged. -/
def anchorInStateStep {M C : Type} (ops : FpOps M C)
    (prev incoming : FpEnv M C) (iterationCount : Nat) : FpEnv M C :=
  if iterationCount = 2 ∨ iterationCount = 3 then
    let loopVariants := ops.getLoopVariants prev incoming
    let invariantEntryCondition :=
      ops.removeConjunctsThatDependOn prev.entryCondition loopVariants
    let s :=
      if iterationCount = 2 then ops.join prev incoming
      else ops.widen prev incoming
    { s with entryCondition := invariantEntryCondition }
  else if 3 < iterationCount then
    { ops.widen prev incoming with entryCondition := prev.entryCondition }
  else incoming

/-- The sequence of in-states stored at a loop anchor over the successive
iterations of `compute_fixed_point`: iteration `k + 1` applies the
`visit_basic_block` in-state computation to the state stored at iteration
`k` and the incoming predecessor state of iteration `k + 1`.  `first` is
the default environment initially stored in `in_state`. -/
def anchorInState {M C : Type} (ops : FpOps M C) (first : FpEnv M C)
    (incoming : Nat → FpEnv M C) : Nat → FpEnv M C
  | 0 => first
  | k + 1 => anchorInStateStep ops (anchorInState ops first incoming k)
      (incoming (k + 1)) (k + 1)

/-- State threaded through the fixed-point computation: the per-block
out-states, the already-visited set, the incompleteness flag of the body
visitor, and a count of emitted fixed-point-limit diagnostics. -/
structure LoopState (M C : Type) where
  outState : Nat → FpEnv M C
  alreadyVisited : List Nat
  analysisIsIncomplete : Bool
  diagnosticsCount : Nat

/-- Result of `compute_fixed_point`: the last block of the final pass, the
final iteration count, the `changed` flag of the final pass, and the final
state. -/
structure FpResult (M C : Type) where
  lastBlock : Nat
  iterationCount : Nat
  changed : Bool
  state : LoopState M C

/-- One block visit inside the loop body: the block's out-state is computed
by the transfer (the in-state computation, statement transfer and
`visit_basic_block`'s `out_state.insert`) and the block joins the
already-visited set. -/
def visitBlockStep {M C : Type}
    (transfer : Nat → Nat → (Nat → FpEnv M C) → FpEnv M C)
    (anchor iteration bb : Nat) (st : LoopState M C) : LoopState M C :=
  let e := transfer bb (if bb = anchor then iteration else 0) st.outState
  { st with
    outState := fun b => if b = bb then e else st.outState b,
    alreadyVisited := bb :: st.alreadyVisited }

/-- Inner loop of `visit_loop_body` (fixed_point_visitor.rs:258-292) over the
sorted block indices, for a loop body without nested loop anchors: each
unvisited block dominated by the anchor is visited (with the iteration count
at the anchor itself and 0 elsewhere, the anchor in-state computation being
part of `transfer`), its out-state recorded, and from iteration 4 onward the
new out-state is compared for subset against the snapshot `oldState` taken
at the start of the pass.  The cooperative budget checkpoints of the source
are omitted; they exit the pass early without touching the recorded
states. -/
def visitLoopBodyGo {M C : Type} (ops : FpOps M C)
    (transfer : Nat → Nat → (Nat → FpEnv M C) → FpEnv M C)
    (dominates : Nat → Nat → Bool) (anchor iteration : Nat)
    (oldState : Nat → FpEnv M C) :
    List Nat → Bool → Nat → LoopState M C → Bool × Nat × LoopState M C
  | [], changed, lastBlock, st => (changed, lastBlock, st)
  | bb :: rest, changed, lastBlock, st =>
    if !st.alreadyVisited.contains bb && dominates anchor bb then
      let st1 := visitBlockStep transfer anchor iteration bb st
      let changed1 :=
        if 3 < iteration ∧ !ops.subset (st1.outState bb) (oldState bb) then true
        else changed
      visitLoopBodyGo ops transfer dominates anchor iteration oldState rest
        changed1 bb st1
    else
      visitLoopBodyGo ops transfer dominates anchor iteration oldState rest
        changed lastBlock st

/-- Embeds `visit_loop_body` (fixed_point_visitor.rs:258): one pass over the
loop body, returning whether some block's out-state grew (from iteration 4
onward), the last visited block, and the new state. -/
def visitLoopBody {M C : Type} (ops : FpOps M C)
    (transfer : Nat → Nat → (Nat → FpEnv M C) → FpEnv M C)
    (dominates : Nat → Nat → Bool) (blocks : List Nat)
    (anchor iteration : Nat) (st : LoopState M C) :
    Bool × Nat × LoopState M C :=
  visitLoopBodyGo ops transfer dominates anchor iteration st.outState blocks
    false anchor st

/-- The iteration loop of `compute_fixed_point`
(fixed_point_visitor.rs:200-219): each pass restores the saved
already-visited set and runs `visit_loop_body`; the loop stops when the
iteration count reaches `maxIter` (the source's
`k_limits::MAX_FIXPOINT_ITERATIONS`, here a parameter since `k_limits.rs` is
not part of the provided sources), or when more than four iterations ran and
the last pass reported no change.  `fuel` only bounds the recursion depth;
`computeFixedPoint` supplies `maxIter`, which the `maxIter ≤ iteration`
break makes sufficient, so the fuel-exhaustion branch is never taken from
there. -/
def computeFixedPointLoop {M C : Type} (ops : FpOps M C)
    (transfer : Nat → Nat → (Nat → FpEnv M C) → FpEnv M C)
    (dominates : Nat → Nat → Bool) (blocks : List Nat)
    (anchor maxIter : Nat) (saved : List Nat) :
    Nat → Nat → LoopState M C → FpResult M C
  | fuel, iteration, st =>
    let st1 := { st with alreadyVisited := saved }
    let r := visitLoopBody ops transfer dominates blocks anchor iteration st1
    if maxIter ≤ iteration then
      { lastBlock := r.2.1, iterationCount := iteration, changed := r.1,
        state := r.2.2 }
    else if iteration + 1 ≤ 4 ∨ r.1 then
      match fuel with
      | 0 =>
        { lastBlock := r.2.1, iterationCount := iteration, changed := r.1,
          state := r.2.2 }
      | fuel + 1 =>
        computeFixedPointLoop ops transfer dominates blocks anchor maxIter
          saved fuel (iteration + 1) r.2.2
    else
      { lastBlock := r.2.1, iterationCount := iteration + 1, changed := r.1,
        state := r.2.2 }

/-- Post-loop handling of `compute_fixed_point`: reaching the iteration
limit with a pass that still reported change emits one fixed-point-limit
diagnostic. -/
def bumpDiagnosticsIfLimit {M C : Type} (maxIter : Nat) (r : FpResult M C) :
    FpResult M C :=
  if maxIter ≤ r.iterationCount ∧ r.changed = true then
    { r with state :=
        { r.state with diagnosticsCount := r.state.diagnosticsCount + 1 } }
  else r

/-- Embeds `compute_fixed_point` (fixed_point_visitor.rs:200).  The saved
already-visited set is the one at entry; after the loop, reaching the
iteration limit with a pass that still reported change emits one
fixed-point-limit diagnostic (a buffered warning in paranoid mode, a log
warning otherwise — collapsed here into one diagnostics counter).  The
incompleteness flag of the body visitor is not touched by this function. -/
def computeFixedPoint {M C : Type} (ops : FpOps M C)
    (transfer : Nat → Nat → (Nat → FpEnv M C) → FpEnv M C)
    (dominates : Nat → Nat → Bool) (blocks : List Nat)
    (anchor maxIter : Nat) (st : LoopState M C) : FpResult M C :=
  bumpDiagnosticsIfLimit maxIter
    (computeFixedPointLoop ops transfer dominates blocks anchor maxIter
      st.alreadyVisited maxIter 1 st)

/-- Modelled from the spec: `unsigned_shift_right` discards the given number
of low-order bits (`abstract_value.rs` is not part of the provided
sources). -/
def unsignedShiftRight (v k : Nat) : Nat := v / 2 ^ k

/-- Modelled from the spec: `unsigned_shift_left` makes room for the given
number of low-order bits. -/
def unsignedShiftLeft (v k : Nat) : Nat := v * 2 ^ k

/-- Modelled from the spec: `unsigned_modulo` truncates to the given number
of bits. -/
def unsignedModulo (v k : Nat) : Nat := v % 2 ^ k

/-- Modelled from the spec: `transmute` to an integer type of the given bit
width truncates to that width. -/
def transmuteToWidth (v k : Nat) : Nat := v % 2 ^ k

mutual

/-- Inner loop of `copy_field_bits` (body_visitor.rs:2114-2152): the current
target field still needs `targetBitsToWrite` bits after `writtenTargetBits`
bits (accumulated in `val`) were taken from previous source fields.  Source
fields are consumed (each contributing its low bits shifted into place and
added) until the target is filled; running out of source fields emits the
underfill warning and abandons the remaining targets (the source `break`s
out of the inner loop and the next outer iteration, if any, warns again and
`break`s).  On success the assembled value is transmuted to the target width
and the scan continues with the remaining targets.  Source fields are
represented as (looked-up value, bit width) pairs, targets as (path ordinal,
bit width) pairs; the source's `source_field_index` is represented by
passing the list of remaining source fields. -/
def copyFieldBitsMulti (srcs : List (Nat × Nat)) (val writtenTargetBits : Nat)
    (targetBitsToWrite targetOrdinal targetWidth : Nat)
    (tgts : List (Nat × Nat)) : List (Nat × Nat) × Bool :=
  match srcs with
  | [] => ([], true)
  | (svalNext, swNext) :: srcs =>
    let nextVal :=
      unsignedShiftLeft (unsignedModulo svalNext targetBitsToWrite)
        writtenTargetBits
    let val := nextVal + val
    if targetBitsToWrite ≤ swNext then
      let assigned := transmuteToWidth val targetWidth
      if swNext = targetBitsToWrite then
        let r := copyFieldBitsGo srcs 0 tgts
        ((targetOrdinal, assigned) :: r.1, r.2)
      else
        let r := copyFieldBitsGo ((svalNext, swNext) :: srcs)
          targetBitsToWrite tgts
        ((targetOrdinal, assigned) :: r.1, r.2)
    else
      copyFieldBitsMulti srcs val (writtenTargetBits + swNext)
        (targetBitsToWrite - swNext) targetOrdinal targetWidth tgts
termination_by srcs.length + tgts.length + 1

/-- Outer loop of `copy_field_bits` (body_visitor.rs:2005): walk the target
fields, consuming bits of the source fields in order.  `copied` is the
source's `copied_source_bits`: the number of low-order bits of the current
(head) source field already consumed by earlier targets.  The source's
first branch additionally tests that the target expression type equals the
inferred type of the looked-up value; for looked-up integer constants that
fit their field width this is equivalent to the width equality, so the test
reduces to `copied = 0 ∧ sw = tw` here.  The string-literal expansion and
the heap-block-alignment special cases do not arise for integer constant
values and are omitted.  Returns the (target ordinal, assigned value) list
and whether the underfill warning was emitted. -/
def copyFieldBitsGo (srcs : List (Nat × Nat)) (copied : Nat)
    (tgts : List (Nat × Nat)) : List (Nat × Nat) × Bool :=
  match srcs, tgts with
  | _, [] => ([], false)
  | [], _ :: _ => ([], true)
  | (sval, sw) :: srcs, (targetOrdinal, targetWidth) :: tgts =>
    let val := unsignedShiftRight sval copied
    if copied = 0 ∧ sw = targetWidth then
      let r := copyFieldBitsGo srcs 0 tgts
      ((targetOrdinal, val) :: r.1, r.2)
    else if targetWidth ≤ sw - copied then
      let val :=
        if targetWidth < sw - copied then unsignedModulo val targetWidth
        else val
      if copied + targetWidth = sw then
        let r := copyFieldBitsGo srcs 0 tgts
        ((targetOrdinal, val) :: r.1, r.2)
      else
        let r := copyFieldBitsGo ((sval, sw) :: srcs)
          (copied + targetWidth) tgts
        ((targetOrdinal, val) :: r.1, r.2)
    else
      copyFieldBitsMulti srcs (unsignedModulo val (sw - copied))
        (sw - copied) (targetWidth - (sw - copied)) targetOrdinal targetWidth
        tgts
termination_by srcs.length + tgts.length

end

/-- Embeds `copy_field_bits` (body_visitor.rs:2005): starts the scan with no
source bits consumed. -/
def copyFieldBits (sourceFields targetFields : List (Nat × Nat)) :
    List (Nat × Nat) × Bool :=
  copyFieldBitsGo sourceFields 0 targetFields

/-- Pairs the leaf widths of a union field with their ordinals, representing
the leaf paths produced by `copy_and_transmute`'s flattening. -/
def enumWidths (widths : List Nat) : List (Nat × Nat) :=
  (List.range widths.length).zip widths

/-- Embeds the `PathSelector::UnionField` arm of `update_value_at`
(body_visitor.rs:2682): an assignment through union field `caseIndex`
re-assigns every union field `0 ≤ i < numCases` by transmuting the source
value to the sibling's type via `copy_and_transmute`/`copy_field_bits`.  A
union is represented by the flattened leaf widths of each of its fields and
the assigned value by its looked-up leaf values (aligned with field
`caseIndex`'s leaf widths); the result is, per sibling, the (leaf ordinal,
assigned value) list together with the underfill-warning flag. -/
def updateValueAtUnionField (fields : List (List Nat)) (caseIndex : Nat)
    (vals : List Nat) : List (List (Nat × Nat) × Bool) :=
  (List.range fields.length).map (fun i =>
    copyFieldBits (vals.zip (fields.getD caseIndex []))
      (enumWidths (fields.getD i [])))

/-- Specification-side packing: the bits of the source fields concatenated
least-significant first (spec section 4.F, byte-exact transmutation). -/
def packFields : List (Nat × Nat) → Nat
  | [] => 0
  | (v, w) :: rest => v % 2 ^ w + 2 ^ w * packFields rest

/-- Total bit width of a field list. -/
def totalWidth : List (Nat × Nat) → Nat
  | [] => 0
  | (_, w) :: rest => w + totalWidth rest

/-- Specification-side consumption of `n` bits from a field list: the head
field loses its `n` low-order bits, crossing field boundaries as needed. -/
def specDrop : List (Nat × Nat) → Nat → List (Nat × Nat)
  | [], _ => []
  | (v, w) :: rest, n =>
    if n < w then (v / 2 ^ n, w - n) :: rest
    else specDrop rest (n - w)

/-- Specification-side splitting, following the spec's words for the
byte-exact transmutation: each target field in turn receives the next
`targetWidth` low-order bits of the packed source value, as long as enough
source bits remain; the first target that cannot be filled raises the
underfill warning and ends the assignment. -/
def specSplit : Nat → Nat → List (Nat × Nat) → List (Nat × Nat) × Bool
  | _, _, [] => ([], false)
  | pack, avail, (targetOrdinal, targetWidth) :: tgts =>
    if targetWidth ≤ avail then
      let r := specSplit (pack / 2 ^ targetWidth) (avail - targetWidth) tgts
      ((targetOrdinal, pack % 2 ^ targetWidth) :: r.1, r.2)
    else ([], true)

/-- Specification-side byte-exact transmutation of a source field list to a
target field list: pack, then split. -/
def specTransmute (sourceFields targetFields : List (Nat × Nat)) :
    List (Nat × Nat) × Bool :=
  specSplit (packFields sourceFields) (totalWidth sourceFields) targetFields

/-- The oracle stub answering unknown to every query (the solver used when
HEPHA is built without the z3 feature). -/
def stubSolve : SValue → SmtResult := fun _ => .unknown

/-- The per-statement reentrancy test applied by the scan of `check`. -/
def matchesReentrancy (c : ReentrancyCheckerM) : MBlockStatement → Bool
  | .statement kind => visitReentrancyStatement c kind
  | .terminatorKind kind => visitReentrancyTerminator c kind

/-- Concrete environment for the offset-check scenario: a heap block with a
length-16 layout entry, under a true entry condition. -/
def offsetScenarioEnv : SEnv :=
  { valueMap := [(SPath.qualified (SPath.heapBlock 0 false) .layout,
      SValue.heapBlockLayout (.intConst 16) (.intConst 8) .alloc)],
    entryCondition := .boolConst true }

/-- The heap block of the deallocation scenario. -/
def deallocScenarioBlock : SPath := SPath.heapBlock 3 false

/-- Concrete environment for the deallocation scenario: the block's layout
(already deallocated, length 8), a field entry rooted in the block, and an
unrelated local. -/
def deallocScenarioEnv : SEnv :=
  { valueMap :=
      [(SPath.qualified deallocScenarioBlock .layout,
          SValue.heapBlockLayout (.intConst 8) (.intConst 4) .deAlloc),
        (SPath.qualified deallocScenarioBlock (.field 0), SValue.intConst 7),
        (SPath.localVar 1, SValue.intConst 9)],
    entryCondition := .boolConst true }

/-- The zeroed heap block of the reallocation scenario. -/
def reallocScenarioBlock : SPath := SPath.heapBlock 5 true

/-- Concrete environment for the reallocation scenario: a reference to the
zeroed block, a reference and a variable rooted below it, and an unrelated
constant entry. -/
def reallocScenarioEnv : SEnv :=
  { valueMap :=
      [(SPath.localVar 0, SValue.reference reallocScenarioBlock),
        (SPath.localVar 1,
          SValue.reference (SPath.qualified reallocScenarioBlock (.field 1))),
        (SPath.localVar 2,
          SValue.varVal (SPath.qualified reallocScenarioBlock .deref) .u128),
        (SPath.localVar 3, SValue.intConst 4)],
    entryCondition := .boolConst true }

/-- Concrete environment operations over numeric maps and conditions, used
to instantiate the fixed-point theorems. -/
def fpNatOps : FpOps Nat Nat :=
  { join := fun a b =>
      { valueMap := a.valueMap + b.valueMap,
        entryCondition := a.entryCondition + b.entryCondition },
    widen := fun a b =>
      { valueMap := a.valueMap * b.valueMap + 1,
        entryCondition := a.entryCondition + 1 },
    subset := fun a b => decide (a.valueMap ≤ b.valueMap),
    getLoopVariants := fun a b => [a.valueMap, b.valueMap],
    removeConjunctsThatDependOn := fun c l => c + l.length }

/-- Concrete incoming predecessor states per iteration for the fixed-point
witness. -/
def fpIncoming : Nat → FpEnv Nat Nat :=
  fun k => { valueMap := k, entryCondition := k * 10 }

/-- Concrete default first environment for the fixed-point witness. -/
def fpFirst : FpEnv Nat Nat := { valueMap := 0, entryCondition := 0 }

/-- Trivial environment operations over a numeric map, used for the
fixed-point counterexample. -/
def fpUnitOps : FpOps Nat Unit :=
  { join := fun a _ => a,
    widen := fun a _ => a,
    subset := fun a b => decide (a.valueMap ≤ b.valueMap),
    getLoopVariants := fun _ _ => [],
    removeConjunctsThatDependOn := fun c _ => c }

/-- A transfer function whose out-state grows on every visit, so that the
fixed-point loop never converges. -/
def fpGrowTransfer : Nat → Nat → (Nat → FpEnv Nat Unit) → FpEnv Nat Unit :=
  fun bb _ out => { valueMap := (out bb).valueMap + 1, entryCondition := () }

/-- A transfer function that keeps every out-state unchanged, so that the
fixed-point loop converges immediately. -/
def fpStableTransfer : Nat → Nat → (Nat → FpEnv Nat Unit) → FpEnv Nat Unit :=
  fun bb _ out => out bb

/-- Initial fixed-point state: default out-states, nothing visited, the
incompleteness flag clear and no diagnostics. -/
def fpInitState : LoopState Nat Unit :=
  { outState := fun _ => { valueMap := 0, entryCondition := () },
    alreadyVisited := [], analysisIsIncomplete := false,
    diagnosticsCount := 0 }

/-- Concrete reentrancy checker state: a lamport transfer last recorded at
block 3, the balance variable local 5, an earlier assignment at block 1 and
a later assignment at block 4. -/
def reentrancyScenario : ReentrancyCheckerM :=
  { blockStatements :=
      [(1, [.statement (.assign 5)]),
        (4, [.statement (.otherStmt), .statement (.assign 5)])],
    functionLamportTransfer := [(2, 0), (3, 1)],
    temporaryVariableForBalance := some 5 }

/-! Theorems. -/

/-- C8: `get_new_heap_block` is deterministic per analysis location: a second
call at the same current location (with any length, alignment and zeroed
flag) returns the same heap block value, because the block is memoized in
`heap_addresses` keyed by the location. -/
theorem get_new_heap_block_deterministic (st : BvHeapState) (loc : Nat)
    (len1 align1 : SValue) (z1 : Bool) (len2 align2 : SValue) (z2 : Bool) :
    ((getNewHeapBlock (getNewHeapBlock st loc len1 align1 z1).2 loc
        len2 align2 z2).1).1
      = ((getNewHeapBlock st loc len1 align1 z1).1).1 := by
  unfold getNewHeapBlock
  cases h : st.heapAddresses.find? (fun e => decide (e.1 = loc)) with
  | some e => simp [h]
  | none => simp [h, List.find?]

/-- C9 counterexample: for an enum with `repr(u8)`, the type resolver's
`Discriminant` arm does not return the repr-determined integer type (it
returns `i32`, the repr determines `u8`). -/
theorem discriminant_resolver_counterexample :
    getPathRustcTypeDiscriminant
        (RTy.adtEnum (some (IntegerTypeM.fixed AbiInteger.i8 false)))
      ≠ reprIntToRustcType (IntegerTypeM.fixed AbiInteger.i8 false) := by
  decide

/-- C9 (amended): for every path qualified by the `Discriminant` selector the
type resolver returns `i32` regardless of the enum's repr attribute; this
agrees with the repr-determined integer type exactly when the repr is
`i32`; the repr-determined integer type is instead used by
`add_leaf_fields_for` when flattening an enum for transmutation. -/
theorem discriminant_resolver_amended :
    (∀ t : RTy, getPathRustcTypeDiscriminant t = RTy.i32) ∧
    (∀ r : IntegerTypeM,
      (getPathRustcTypeDiscriminant (RTy.adtEnum (some r))
          = reprIntToRustcType r ↔
        r = IntegerTypeM.fixed AbiInteger.i32 true)) ∧
    (∀ (p : SPath) (r : IntegerTypeM),
      addLeafFieldsForRepr p r
        = [(SPath.qualified p Selector.discriminant, reprIntToRustcType r)]) := by
  refine ⟨fun t => rfl, fun r => ?_, fun p r => rfl⟩
  cases r with
  | fixed t s => cases t <;> cases s <;> decide
  | pointerSized s => cases s <;> decide

/-- C4: for an `Offset { left, right }` value whose left operand references a
heap block with a known layout length `L`, and a concrete offset `r`, the
checker forms the range condition `0 ≤ r ∧ r ≤ L + 1` and warns exactly when
the entry condition may hold while the range condition is false.  The entry
condition is assumed decided by the abstract domains. -/
theorem check_offset_range (solve : SValue → SmtResult) (env : SEnv)
    (addr : Nat) (zeroed : Bool) (r L : Int) (alignment : SValue)
    (src : LayoutSource) (e : Bool)
    (hlay : lookupPathAndRefineResult env
        (SPath.qualified (SPath.heapBlock addr zeroed) Selector.layout)
      = SValue.heapBlockLayout (SValue.intConst L) alignment src)
    (hentry : env.entryCondition.asBoolIfKnown = some e) :
    checkOffset solve env
        (SValue.offsetE (SValue.reference (SPath.heapBlock addr zeroed))
          (SValue.intConst r))
      = if e ∧ ¬(0 ≤ r ∧ r ≤ L + 1) then [SWarning.offsetOutsideAllocatedRange]
        else [] := by
  simp only [checkOffset, hlay, SValue.greaterOrEqual, SValue.addition,
    SValue.lessOrEqual, SValue.andOp]
  unfold checkConditionValueAndReachability
  rw [hentry]
  simp only [SValue.asBoolIfKnown]
  cases e <;> by_cases h0 : (0 : Int) ≤ r <;> by_cases h1 : r ≤ L + 1 <;>
    simp [h0, h1]

/-- C4 witness: in the concrete scenario (block of length 16, true entry
condition) the offset 16 is allowed and the offset 18 warns. -/
theorem check_offset_range_witness :
    checkOffset stubSolve offsetScenarioEnv
        (SValue.offsetE (SValue.reference (SPath.heapBlock 0 false))
          (SValue.intConst 16)) = []
    ∧ checkOffset stubSolve offsetScenarioEnv
        (SValue.offsetE (SValue.reference (SPath.heapBlock 0 false))
          (SValue.intConst 18))
      = [SWarning.offsetOutsideAllocatedRange] := by
  constructor
  · rw [check_offset_range stubSolve offsetScenarioEnv 0 false 16 16
      (SValue.intConst 8) LayoutSource.alloc true (by decide) (by decide)]
    decide
  · rw [check_offset_range stubSolve offsetScenarioEnv 0 false 18 16
      (SValue.intConst 8) LayoutSource.alloc true (by decide) (by decide)]
    decide

/-- The inner statement scan of `check` accumulates a pure disjunction. -/
theorem reentrancy_inner_foldl (c : ReentrancyCheckerM)
    (l : List MBlockStatement) (acc : Bool) :
    l.foldl
        (fun acc bs =>
          match bs with
          | .statement kind => visitReentrancyStatement c kind || acc
          | .terminatorKind kind => visitReentrancyTerminator c kind || acc)
        acc
      = (acc || l.any (matchesReentrancy c)) := by
  induction l generalizing acc with
  | nil => simp
  | cons hd tl ih =>
    cases hd with
    | statement kind =>
      rw [List.foldl_cons, ih, List.any_cons]
      simp [matchesReentrancy]
      cases visitReentrancyStatement c kind <;> cases acc <;> simp
    | terminatorKind kind =>
      rw [List.foldl_cons, ih, List.any_cons]
      simp [matchesReentrancy]
      cases visitReentrancyTerminator c kind <;> cases acc <;> simp

/-- The outer block scan of `check` accumulates a pure disjunction over the
blocks after the last lamport-transfer block. -/
theorem reentrancy_outer_foldl (c : ReentrancyCheckerM) (lastBb : Nat)
    (ls : List (Nat × List MBlockStatement)) (acc : Bool) :
    ls.foldl
        (fun isReentrancy e =>
          if e.1 ≤ lastBb then isReentrancy
          else
            e.2.foldl
              (fun acc bs =>
                match bs with
                | .statement kind => visitReentrancyStatement c kind || acc
                | .terminatorKind kind =>
                  visitReentrancyTerminator c kind || acc)
              isReentrancy)
        acc
      = (acc ||
          ls.any (fun e =>
            if e.1 ≤ lastBb then false else e.2.any (matchesReentrancy c))) := by
  induction ls generalizing acc with
  | nil => simp
  | cons hd tl ih =>
    rw [List.foldl_cons, List.any_cons]
    by_cases h : hd.1 ≤ lastBb
    · simp only [h, if_true]
      rw [ih]
      simp
    · simp only [h, if_false]
      rw [reentrancy_inner_foldl, ih]
      cases acc <;> cases hd.2.any (matchesReentrancy c) <;> simp

/-- The per-statement test holds exactly for an assignment to the recorded
balance local or a subtraction-overflow assert copying it. -/
theorem matchesReentrancy_iff (c : ReentrancyCheckerM) (bs : MBlockStatement) :
    matchesReentrancy c bs = true ↔
      ∃ bal, c.temporaryVariableForBalance = some bal ∧
        (bs = MBlockStatement.statement (MStatementKind.assign bal) ∨
          bs = MBlockStatement.terminatorKind
            (MTerminatorKind.assertSubOverflow (MOperand.copy bal))) := by
  cases hbal : c.temporaryVariableForBalance with
  | none =>
    cases bs with
    | statement kind =>
      cases kind <;> simp [matchesReentrancy, visitReentrancyStatement, hbal]
    | terminatorKind kind =>
      cases kind with
      | assertSubOverflow op =>
        cases op <;>
          simp [matchesReentrancy, visitReentrancyTerminator, hbal]
      | otherTerm => simp [matchesReentrancy, visitReentrancyTerminator]
  | some t =>
    cases bs with
    | statement kind =>
      cases kind with
      | assign d =>
        simp [matchesReentrancy, visitReentrancyStatement, hbal, eq_comm]
      | otherStmt => simp [matchesReentrancy, visitReentrancyStatement]
    | terminatorKind kind =>
      cases kind with
      | assertSubOverflow op =>
        cases op with
        | copy l =>
          simp [matchesReentrancy, visitReentrancyTerminator, hbal, eq_comm]
        | move l => simp [matchesReentrancy, visitReentrancyTerminator]
        | constant => simp [matchesReentrancy, visitReentrancyTerminator]
      | otherTerm => simp [matchesReentrancy, visitReentrancyTerminator]

/-- C10: `ReentrancyChecker::check` returns false when no lamport transfer
was recorded; otherwise it returns true exactly when some block strictly
after the last recorded lamport-transfer block contains an assignment whose
destination has the recorded balance variable's local, or a
subtraction-overflow assert whose left operand copies that local. -/
theorem reentrancy_check_iff (c : ReentrancyCheckerM) :
    (c.functionLamportTransfer = [] → c.check = false) ∧
    (∀ lastBb s, c.functionLamportTransfer.getLast? = some (lastBb, s) →
      (c.check = true ↔
        ∃ e ∈ c.blockStatements, lastBb < e.1 ∧
          ∃ bs ∈ e.2, ∃ bal,
            c.temporaryVariableForBalance = some bal ∧
            (bs = MBlockStatement.statement (MStatementKind.assign bal) ∨
              bs = MBlockStatement.terminatorKind
                (MTerminatorKind.assertSubOverflow (MOperand.copy bal))))) := by
  constructor
  · intro h
    simp [ReentrancyCheckerM.check, h]
  · intro lastBb s h
    have hne : c.functionLamportTransfer.isEmpty = false := by
      cases hl : c.functionLamportTransfer with
      | nil => rw [hl] at h; simp at h
      | cons a t => simp
    unfold ReentrancyCheckerM.check
    rw [hne, h]
    simp only [Bool.false_eq_true, if_false]
    rw [reentrancy_outer_foldl]
    simp only [Bool.false_or, List.any_eq_true]
    constructor
    · rintro ⟨e, he, hcond⟩
      by_cases hle : e.1 ≤ lastBb
      · simp [hle] at hcond
      · simp only [hle, if_false, List.any_eq_true] at hcond
        obtain ⟨bs, hbs, hm⟩ := hcond
        obtain ⟨bal, hbal, hor⟩ := (matchesReentrancy_iff c bs).mp hm
        exact ⟨e, he, Nat.lt_of_not_le hle, bs, hbs, bal, hbal, hor⟩
    · rintro ⟨e, he, hlt, bs, hbs, bal, hbal, hor⟩
      refine ⟨e, he, ?_⟩
      have hle : ¬ e.1 ≤ lastBb := Nat.not_le_of_lt hlt
      simp only [hle, if_false, List.any_eq_true]
      exact ⟨bs, hbs, (matchesReentrancy_iff c bs).mpr ⟨bal, hbal, hor⟩⟩

/-- C10 witness: in the concrete scenario the last lamport transfer is at
block 3 and block 4 assigns the balance local, so `check` reports
reentrancy. -/
theorem reentrancy_check_iff_witness :
    reentrancyScenario.functionLamportTransfer.getLast? = some (3, 1)
    ∧ reentrancyScenario.check = true := by
  refine ⟨by decide, ?_⟩
  rw [(reentrancy_check_iff reentrancyScenario).2 3 1 (by decide)]
  exact ⟨(4, [.statement (.otherStmt), .statement (.assign 5)]), by decide,
    by decide, MBlockStatement.statement (MStatementKind.assign 5), by decide,
    5, by decide, Or.inl rfl⟩

/-- A value whose boolean value is known is the corresponding boolean
constant. -/
theorem asBoolIfKnown_eq_some (v : SValue) (b : Bool)
    (h : v.asBoolIfKnown = some b) : v = SValue.boolConst b := by
  cases v <;> simp_all [SValue.asBoolIfKnown]

/-- Unfolding of the syntactic implication: it holds only by structural
equality, by a false antecedent constant, or through a conjunct of a
conjunction. -/
theorem impliesV_cases (e f : SValue) (h : e.impliesV f = true) :
    e = f ∨ e = SValue.boolConst false ∨
      ∃ l r, e = SValue.andE l r ∧
        (l.impliesV f = true ∨ r.impliesV f = true) := by
  cases e
  case andE l r =>
    unfold SValue.impliesV at h
    simp at h
    rcases h with h | h
    · exact Or.inl h
    · exact Or.inr (Or.inr ⟨l, r, rfl, h⟩)
  case boolConst b =>
    cases b
    · exact Or.inr (Or.inl rfl)
    · unfold SValue.impliesV at h
      simp at h
      exact Or.inl h
  all_goals
    unfold SValue.impliesV at h
    simp at h
    exact Or.inl h

/-- Soundness of the syntactic implication: if `impliesV` holds then every
assignment making the antecedent true makes the consequent true. -/
theorem impliesV_sound (e f : SValue) (h : e.impliesV f = true)
    (a : Nat → Bool) (he : e.evalB a = true) : f.evalB a = true := by
  induction e generalizing f
  case andE l r ihl ihr =>
    rcases impliesV_cases _ _ h with heq | hfalse | ⟨l2, r2, heq, hor⟩
    · rw [← heq]; exact he
    · exact absurd hfalse (by simp)
    · obtain ⟨h1, h2⟩ := SValue.andE.inj heq
      simp [SValue.evalB] at he
      rcases hor with hl | hr
      · exact ihl f (h1 ▸ hl) he.1
      · exact ihr f (h2 ▸ hr) he.2
  case boolConst b =>
    cases b
    · simp [SValue.evalB] at he
    · rcases impliesV_cases _ _ h with heq | hfalse | ⟨l2, r2, heq, _⟩
      · rw [← heq]; exact he
      · exact absurd hfalse (by simp)
      · exact absurd heq (by simp)
  all_goals
    rcases impliesV_cases _ _ h with heq | hfalse | ⟨l2, r2, heq, _⟩
    · rw [← heq]; exact he
    · exact absurd hfalse (by simp)
    · exact absurd heq (by simp)

/-- If `solve_condition` reports a condition always true, the oracle proved
its negation unsatisfiable. -/
theorem solveCondition_some_true_inv (s : SValue → SmtResult) (c : SValue)
    (h : solveCondition s c = some true) :
    s (SValue.notE c) = SmtResult.unsatisfiable := by
  unfold solveCondition at h
  cases hs : s c <;> rw [hs] at h <;> simp at h
  by_contra hne
  simp [hne] at h

/-- If `check_condition_value_and_reachability` decides the condition to be
true then, assuming the oracle only reports unsatisfiable for formulas false
under every assignment, the condition holds under every assignment
satisfying the entry condition. -/
theorem checkCondition_some_true_sound (solve : SValue → SmtResult)
    (entry cond : SValue)
    (hsound : ∀ x, solve x = SmtResult.unsatisfiable →
      ∀ a, x.evalB a = false)
    (h : (checkConditionValueAndReachability solve entry cond).1 = some true)
    (a : Nat → Bool) (hentry : entry.evalB a = true) : cond.evalB a = true := by
  unfold checkConditionValueAndReachability at h
  split at h
  next e hE =>
    have hentryC := asBoolIfKnown_eq_some entry e hE
    cases e with
    | false =>
      rw [hentryC] at hentry
      simp [SValue.evalB] at hentry
    | true =>
      split at h
      next h1 =>
        replace h : solveCondition solve cond = some true := h
        have hnot := solveCondition_some_true_inv solve cond h
        have := hsound (SValue.notE cond) hnot a
        simpa [SValue.evalB] using this
      next h1 =>
        replace h : cond.asBoolIfKnown = some true := h
        rw [asBoolIfKnown_eq_some cond true h]
        rfl
  next hE =>
    split at h
    next h1 =>
      rcases Bool.or_eq_true_iff.mp h1 with hcb | himp
      · cases hcv : cond.asBoolIfKnown with
        | none => rw [hcv] at hcb; simp at hcb
        | some b =>
          rw [hcv] at hcb
          simp at hcb
          rw [asBoolIfKnown_eq_some cond b hcv, hcb]
          rfl
      · exact impliesV_sound entry cond himp a hentry
    next h1 =>
      split at h
      next h2 => simp at h
      next h2 =>
        split at h
        next h3 =>
          replace h : cond.asBoolIfKnown = some true := h
          rw [asBoolIfKnown_eq_some cond true h]
          rfl
        next h3 =>
          split at h
          next h4 =>
            replace h : solveCondition
                (fun x => solve (SValue.andE entry x)) cond = some true := h
            have hnot := solveCondition_some_true_inv
              (fun x => solve (SValue.andE entry x)) cond h
            have := hsound (SValue.andE entry (SValue.notE cond)) hnot a
            simp [SValue.evalB, hentry] at this
            simpa using this
          next h4 =>
            replace h : cond.asBoolIfKnown = some true := h
            rw [asBoolIfKnown_eq_some cond true h]
            rfl

/-- C7 counterexample: under the entry condition `x ∧ ¬x` (not literally
false, so its boolean value is unknown) the syntactic implication reports
both the condition `x` and its negation as implied, and
`check_condition_value_and_reachability` returns `Some true` for both. -/
theorem check_condition_consistency_counterexample :
    (checkConditionValueAndReachability stubSolve
        (SValue.andE (SValue.boolVar 0) (SValue.notE (SValue.boolVar 0)))
        (SValue.boolVar 0)).1 = some true
    ∧ (checkConditionValueAndReachability stubSolve
        (SValue.andE (SValue.boolVar 0) (SValue.notE (SValue.boolVar 0)))
        (SValue.notE (SValue.boolVar 0))).1 = some true := by
  decide

/-- C7 (amended): under a fixed environment whose entry condition is
satisfiable, and an oracle that only reports unsatisfiable for formulas
false under every assignment,
`check_condition_value_and_reachability` never returns `Some true` as the
condition truth value for both a condition and its negation. -/
theorem check_condition_consistency (solve : SValue → SmtResult)
    (entry cond : SValue)
    (hsound : ∀ x, solve x = SmtResult.unsatisfiable →
      ∀ a, x.evalB a = false)
    (hsat : ∃ a, entry.evalB a = true) :
    ¬ ((checkConditionValueAndReachability solve entry cond).1 = some true
        ∧ (checkConditionValueAndReachability solve entry
            (SValue.notE cond)).1 = some true) := by
  rintro ⟨h1, h2⟩
  obtain ⟨a, ha⟩ := hsat
  have hc := checkCondition_some_true_sound solve entry cond hsound h1 a ha
  have hn := checkCondition_some_true_sound solve entry (SValue.notE cond)
    hsound h2 a ha
  rw [SValue.evalB, hc] at hn
  simp at hn

/-- C7 witness: the amended consistency theorem applied to the stub oracle
(vacuously sound), the satisfiable entry condition `x₀` and the condition
`x₁`. -/
theorem check_condition_consistency_witness :
    ¬ ((checkConditionValueAndReachability stubSolve (SValue.boolVar 0)
          (SValue.boolVar 1)).1 = some true
        ∧ (checkConditionValueAndReachability stubSolve (SValue.boolVar 0)
            (SValue.notE (SValue.boolVar 1))).1 = some true) :=
  check_condition_consistency stubSolve (SValue.boolVar 0) (SValue.boolVar 1)
    (fun x h => by simp [stubSolve] at h) ⟨fun _ => true, rfl⟩

/-- For a condition that is a boolean constant and an entry condition whose
boolean value is known, `check_condition_value_and_reachability` returns the
two known values and consults no oracle. -/
theorem checkCondition_known (solve : SValue → SmtResult) (entry : SValue)
    (e b : Bool) (hentry : entry.asBoolIfKnown = some e) :
    checkConditionValueAndReachability solve entry (SValue.boolConst b)
      = (some b, some e) := by
  unfold checkConditionValueAndReachability
  rw [hentry]
  simp [SValue.asBoolIfKnown]

/-- For heap block layouts with concrete lengths and alignments,
`check_for_layout_consistency` warns of a double free exactly when the old
layout's source is `DeAlloc`, and of a layout mismatch exactly when the
entry condition may hold while the lengths or alignments differ. -/
theorem check_layout_consistency_eq (solve : SValue → SmtResult) (env : SEnv)
    (e : Bool) (oldLen oldAlign newLen newAlign : Int)
    (os ns : LayoutSource)
    (hentry : env.entryCondition.asBoolIfKnown = some e) :
    checkForLayoutConsistency solve env
        (SValue.heapBlockLayout (SValue.intConst oldLen)
          (SValue.intConst oldAlign) os)
        (SValue.heapBlockLayout (SValue.intConst newLen)
          (SValue.intConst newAlign) ns)
      = (if os = LayoutSource.deAlloc then [SWarning.doubleFree] else [])
        ++ (if e = true ∧ ¬(oldLen = newLen ∧ oldAlign = newAlign) then
              [SWarning.layoutMismatch]
            else []) := by
  unfold checkForLayoutConsistency
  simp only [SValue.equalsOp, SValue.andOp,
    checkCondition_known solve env.entryCondition e _ hentry]
  cases e <;> by_cases h1 : oldLen = newLen <;> by_cases h2 : oldAlign = newAlign <;>
    simp [h1, h2]

/-- C5: a `DeAlloc` heap block layout effect at `q.Layout` removes every
environment key that equals or is rooted by the deallocated block `q`; if
the block's old layout already has source `DeAlloc` a double-free warning is
emitted, and if the old and new layouts differ in length or alignment an
additional layout-mismatch warning is emitted, both only during the
error-checking pass and under an entry condition that may hold. -/
theorem purge_dealloc_effect (solve : SValue → SmtResult)
    (checkForErrors : Bool) (env : SEnv) (q : SPath)
    (oldLen oldAlign newLen newAlign : Int) (ns : LayoutSource) (e : Bool)
    (hold : lookupPathAndRefineResult env (SPath.qualified q Selector.layout)
      = SValue.heapBlockLayout (SValue.intConst oldLen)
          (SValue.intConst oldAlign) LayoutSource.deAlloc)
    (hentry : env.entryCondition.asBoolIfKnown = some e) :
    ((purgeAbstractHeapAddressFromEnvironment solve checkForErrors env
        (SPath.qualified q Selector.layout)
        (SValue.heapBlockLayout (SValue.intConst newLen)
          (SValue.intConst newAlign) ns)).1.valueMap
      = env.valueMap.filter (fun en => !(en.1 = q || en.1.isRootedBy q)))
    ∧ (SWarning.doubleFree ∈
        (purgeAbstractHeapAddressFromEnvironment solve checkForErrors env
          (SPath.qualified q Selector.layout)
          (SValue.heapBlockLayout (SValue.intConst newLen)
            (SValue.intConst newAlign) ns)).2
        ↔ checkForErrors = true)
    ∧ (SWarning.layoutMismatch ∈
        (purgeAbstractHeapAddressFromEnvironment solve checkForErrors env
          (SPath.qualified q Selector.layout)
          (SValue.heapBlockLayout (SValue.intConst newLen)
            (SValue.intConst newAlign) ns)).2
        ↔ checkForErrors = true ∧ e = true
            ∧ ¬(oldLen = newLen ∧ oldAlign = newAlign)) := by
  simp only [purgeAbstractHeapAddressFromEnvironment, hold, reduceIte]
  cases checkForErrors with
  | false => simp
  | true =>
    rw [check_layout_consistency_eq solve env e oldLen oldAlign newLen
      newAlign LayoutSource.deAlloc ns hentry]
    cases e <;>
      by_cases h1 : oldLen = newLen <;> by_cases h2 : oldAlign = newAlign <;>
        simp [h1, h2]

/-- C5 witness: in the concrete scenario (block already deallocated with
length 8, new deallocation with length 16, error-checking pass, true entry
condition) the rooted keys are purged, and both the double-free and the
layout-mismatch warnings are emitted. -/
theorem purge_dealloc_effect_witness :
    ((purgeAbstractHeapAddressFromEnvironment stubSolve true
        deallocScenarioEnv
        (SPath.qualified deallocScenarioBlock Selector.layout)
        (SValue.heapBlockLayout (SValue.intConst 16) (SValue.intConst 4)
          LayoutSource.deAlloc)).1.valueMap
      = [(SPath.localVar 1, SValue.intConst 9)])
    ∧ SWarning.doubleFree ∈
        (purgeAbstractHeapAddressFromEnvironment stubSolve true
          deallocScenarioEnv
          (SPath.qualified deallocScenarioBlock Selector.layout)
          (SValue.heapBlockLayout (SValue.intConst 16) (SValue.intConst 4)
            LayoutSource.deAlloc)).2
    ∧ SWarning.layoutMismatch ∈
        (purgeAbstractHeapAddressFromEnvironment stubSolve true
          deallocScenarioEnv
          (SPath.qualified deallocScenarioBlock Selector.layout)
          (SValue.heapBlockLayout (SValue.intConst 16) (SValue.intConst 4)
            LayoutSource.deAlloc)).2 := by
  obtain ⟨hmap, hdf, hlm⟩ := purge_dealloc_effect stubSolve true
    deallocScenarioEnv deallocScenarioBlock 8 4 16 4 LayoutSource.deAlloc
    true (by decide) (by decide)
  refine ⟨?_, hdf.mpr rfl, hlm.mpr (by simp)⟩
  rw [hmap]
  decide

/-- Replacing the root of the root itself yields the new root. -/
theorem replaceRoot_self (q new : SPath) : q.replaceRoot q new = new := by
  unfold SPath.replaceRoot
  simp

/-- Re-rooting a path that is rooted by the old root yields the new root or
a path rooted by it. -/
theorem replaceRoot_rooted (p q new : SPath)
    (h : p.isRootedBy q = true) :
    p.replaceRoot q new = new
      ∨ (p.replaceRoot q new).isRootedBy new = true := by
  induction p with
  | qualified q' s ih =>
    by_cases hq : SPath.qualified q' s = q
    · left
      rw [SPath.replaceRoot, if_pos hq]
    · right
      rw [SPath.replaceRoot, if_neg hq]
      unfold SPath.isRootedBy at h
      rcases Bool.or_eq_true_iff.mp h with h1 | h2
      · rw [SPath.isRootedBy]
        simp at h1
        rw [h1, replaceRoot_self]
        simp
      · rcases ih h2 with hnew | hroot
        · rw [SPath.isRootedBy, hnew]
          simp
        · rw [SPath.isRootedBy, hroot]
          simp
  | _ => simp [SPath.isRootedBy] at h

/-- C6: a `ReAlloc` layout effect on a zeroed heap block rewrites every
`Reference` or `Variable` value whose path equals or is rooted by the block
to refer to a heap block with the same abstract address and a cleared
zeroed flag, leaves every other entry unchanged, and does nothing when the
block is not zeroed. -/
theorem update_zeroed_flag_rewrites (solve : SValue → SmtResult) (cfe : Bool)
    (env : SEnv) (addr : Nat) (sel : Selector) (newLayout : SValue) :
    (∀ p pr, (p, SValue.reference pr) ∈ env.valueMap →
      (pr = SPath.heapBlock addr true
          || pr.isRootedBy (SPath.heapBlock addr true)) = true →
      (p, SValue.reference (pr.replaceRoot (SPath.heapBlock addr true)
          (SPath.heapBlock addr false)))
        ∈ (updateZeroedFlagForHeapBlockFromEnvironment solve cfe env
            (SPath.qualified (SPath.heapBlock addr true) sel)
            newLayout).1.valueMap)
    ∧ (∀ p pr t, (p, SValue.varVal pr t) ∈ env.valueMap →
        (pr = SPath.heapBlock addr true
            || pr.isRootedBy (SPath.heapBlock addr true)) = true →
        (p, SValue.varVal (pr.replaceRoot (SPath.heapBlock addr true)
            (SPath.heapBlock addr false)) t)
          ∈ (updateZeroedFlagForHeapBlockFromEnvironment solve cfe env
              (SPath.qualified (SPath.heapBlock addr true) sel)
              newLayout).1.valueMap)
    ∧ (∀ p v, (p, v) ∈ env.valueMap →
        (∀ pr, (v = SValue.reference pr ∨ ∃ t, v = SValue.varVal pr t) →
          (pr = SPath.heapBlock addr true
              || pr.isRootedBy (SPath.heapBlock addr true)) = false) →
        (p, v) ∈ (updateZeroedFlagForHeapBlockFromEnvironment solve cfe env
            (SPath.qualified (SPath.heapBlock addr true) sel)
            newLayout).1.valueMap)
    ∧ (∀ pr, (pr = SPath.heapBlock addr true
          || pr.isRootedBy (SPath.heapBlock addr true)) = true →
        (pr.replaceRoot (SPath.heapBlock addr true) (SPath.heapBlock addr false)
            = SPath.heapBlock addr false
          ∨ (pr.replaceRoot (SPath.heapBlock addr true)
              (SPath.heapBlock addr false)).isRootedBy
                (SPath.heapBlock addr false) = true))
    ∧ ((updateZeroedFlagForHeapBlockFromEnvironment solve cfe env
          (SPath.qualified (SPath.heapBlock addr false) sel) newLayout).1
        = env) := by
  refine ⟨?_, ?_, ?_, ?_, ?_⟩
  · intro p pr hmem hcond
    unfold updateZeroedFlagForHeapBlockFromEnvironment
    simp only [reduceIte]
    refine List.mem_map.mpr ⟨(p, SValue.reference pr), hmem, ?_⟩
    simp [hcond]
  · intro p pr t hmem hcond
    unfold updateZeroedFlagForHeapBlockFromEnvironment
    simp only [reduceIte]
    refine List.mem_map.mpr ⟨(p, SValue.varVal pr t), hmem, ?_⟩
    simp [hcond]
  · intro p v hmem hcond
    unfold updateZeroedFlagForHeapBlockFromEnvironment
    simp only [reduceIte]
    refine List.mem_map.mpr ⟨(p, v), hmem, ?_⟩
    cases v with
    | reference pr => simp [hcond pr (Or.inl rfl)]
    | varVal pr t => simp [hcond pr (Or.inr ⟨t, rfl⟩)]
    | _ => rfl
  · intro pr hcond
    rcases Bool.or_eq_true_iff.mp hcond with h1 | h2
    · simp at h1
      rw [h1, replaceRoot_self]
      exact Or.inl rfl
    · exact replaceRoot_rooted pr _ _ h2
  · unfold updateZeroedFlagForHeapBlockFromEnvironment
    simp

/-- C6 witness: in the concrete scenario every reference or variable rooted
in the zeroed block 5 is re-rooted at the non-zeroed block 5, the unrelated
entry is unchanged, and for a non-zeroed block nothing changes. -/
theorem update_zeroed_flag_rewrites_witness :
    ((SPath.localVar 0, SValue.reference (SPath.heapBlock 5 false))
        ∈ (updateZeroedFlagForHeapBlockFromEnvironment stubSolve false
            reallocScenarioEnv
            (SPath.qualified reallocScenarioBlock Selector.layout)
            (SValue.heapBlockLayout (SValue.intConst 16) (SValue.intConst 4)
              LayoutSource.reAlloc)).1.valueMap)
    ∧ ((SPath.localVar 3, SValue.intConst 4)
        ∈ (updateZeroedFlagForHeapBlockFromEnvironment stubSolve false
            reallocScenarioEnv
            (SPath.qualified reallocScenarioBlock Selector.layout)
            (SValue.heapBlockLayout (SValue.intConst 16) (SValue.intConst 4)
              LayoutSource.reAlloc)).1.valueMap)
    ∧ ((updateZeroedFlagForHeapBlockFromEnvironment stubSolve false
          reallocScenarioEnv
          (SPath.qualified (SPath.heapBlock 5 false) Selector.layout)
          (SValue.heapBlockLayout (SValue.intConst 16) (SValue.intConst 4)
            LayoutSource.reAlloc)).1 = reallocScenarioEnv) := by
  obtain ⟨h1, _, h3, _, h5⟩ := update_zeroed_flag_rewrites stubSolve false
    reallocScenarioEnv 5 Selector.layout
    (SValue.heapBlockLayout (SValue.intConst 16) (SValue.intConst 4)
      LayoutSource.reAlloc)
  refine ⟨?_, ?_, h5⟩
  · have := h1 (SPath.localVar 0) reallocScenarioBlock (by decide) (by decide)
    simpa using this
  · exact h3 (SPath.localVar 3) (SValue.intConst 4) (by decide)
      (fun pr hpr => by rcases hpr with h | ⟨t, h⟩ <;> simp at h)

/-- C2: the anchor's in-state is the unchanged incoming state at iteration 1,
the join of the previous in-state with the incoming state at iteration 2 and
the widening from iteration 3 onward; at iterations 2 and 3 the entry
condition is recomputed by dropping the conjuncts that depend on the loop
variants (the paths whose values changed between the previous and the
incoming state), and from iteration 4 onward the entry condition is frozen
to the one computed at iteration 3. -/
theorem anchor_in_state_characterization {M C : Type} (ops : FpOps M C)
    (first : FpEnv M C) (incoming : Nat → FpEnv M C) :
    (anchorInState ops first incoming 1 = incoming 1)
    ∧ (anchorInState ops first incoming 2 =
        { ops.join (anchorInState ops first incoming 1) (incoming 2) with
          entryCondition := ops.removeConjunctsThatDependOn
            (anchorInState ops first incoming 1).entryCondition
            (ops.getLoopVariants (anchorInState ops first incoming 1)
              (incoming 2)) })
    ∧ (anchorInState ops first incoming 3 =
        { ops.widen (anchorInState ops first incoming 2) (incoming 3) with
          entryCondition := ops.removeConjunctsThatDependOn
            (anchorInState ops first incoming 2).entryCondition
            (ops.getLoopVariants (anchorInState ops first incoming 2)
              (incoming 3)) })
    ∧ (∀ k, 3 ≤ k → anchorInState ops first incoming (k + 1) =
        { ops.widen (anchorInState ops first incoming k) (incoming (k + 1)) with
          entryCondition :=
            (anchorInState ops first incoming k).entryCondition })
    ∧ (∀ k, 3 ≤ k →
        (anchorInState ops first incoming k).entryCondition
          = (anchorInState ops first incoming 3).entryCondition) := by
  refine ⟨rfl, rfl, rfl, ?_, ?_⟩
  · intro k hk
    show anchorInStateStep ops (anchorInState ops first incoming k)
      (incoming (k + 1)) (k + 1) = _
    unfold anchorInStateStep
    rw [if_neg (by omega), if_pos (by omega)]
  · intro k hk
    induction k, hk using Nat.le_induction with
    | base => rfl
    | succ k hk ih =>
      rw [show anchorInState ops first incoming (k + 1)
          = anchorInStateStep ops (anchorInState ops first incoming k)
              (incoming (k + 1)) (k + 1) from rfl]
      unfold anchorInStateStep
      rw [if_neg (by omega), if_pos (by omega)]
      exact ih

/-- C2 witness: the characterization applied to the concrete numeric
environment operations; the entry condition at iteration 5 equals the one
computed at iteration 3. -/
theorem anchor_in_state_characterization_witness :
    (anchorInState fpNatOps fpFirst fpIncoming 2 =
      { fpNatOps.join (anchorInState fpNatOps fpFirst fpIncoming 1)
          (fpIncoming 2) with
        entryCondition := fpNatOps.removeConjunctsThatDependOn
          (anchorInState fpNatOps fpFirst fpIncoming 1).entryCondition
          (fpNatOps.getLoopVariants
            (anchorInState fpNatOps fpFirst fpIncoming 1) (fpIncoming 2)) })
    ∧ (anchorInState fpNatOps fpFirst fpIncoming 5).entryCondition
        = (anchorInState fpNatOps fpFirst fpIncoming 3).entryCondition :=
  ⟨(anchor_in_state_characterization fpNatOps fpFirst fpIncoming).2.1,
    (anchor_in_state_characterization fpNatOps fpFirst fpIncoming).2.2.2.2 5
      (by omega)⟩

/-- A loop-body pass does not modify the out-state of an already-visited
block, and such a block stays visited. -/
theorem visitLoopBodyGo_preserves_visited {M C : Type} (ops : FpOps M C)
    (transfer : Nat → Nat → (Nat → FpEnv M C) → FpEnv M C)
    (dominates : Nat → Nat → Bool) (anchor iteration : Nat)
    (oldState : Nat → FpEnv M C) (l : List Nat) (changed0 : Bool)
    (last0 : Nat) (st : LoopState M C) (b : Nat)
    (hb : st.alreadyVisited.contains b = true) :
    ((visitLoopBodyGo ops transfer dominates anchor iteration oldState l
        changed0 last0 st).2.2.outState b = st.outState b)
    ∧ ((visitLoopBodyGo ops transfer dominates anchor iteration oldState l
        changed0 last0 st).2.2.alreadyVisited.contains b = true) := by
  induction l generalizing changed0 last0 st with
  | nil => exact ⟨rfl, hb⟩
  | cons bb rest ih =>
    rw [visitLoopBodyGo]
    by_cases hc : (!st.alreadyVisited.contains bb && dominates anchor bb) = true
    · rw [if_pos hc]
      have hbb : b ≠ bb := by
        intro heq
        rw [heq] at hb
        rw [Bool.and_eq_true, Bool.not_eq_true'] at hc
        rw [hb] at hc
        simp at hc
      have hb1 : (visitBlockStep transfer anchor iteration bb
          st).alreadyVisited.contains b = true := by
        simp only [visitBlockStep, List.contains_cons]
        rw [hb]
        simp
      obtain ⟨h1, h2⟩ := ih _ _ (visitBlockStep transfer anchor iteration bb st) hb1
      refine ⟨?_, h2⟩
      rw [h1]
      simp [visitBlockStep, hbb]
    · rw [if_neg hc]
      exact ih _ _ st hb

/-- The changed flag of a loop-body pass only latches: a pass reporting no
change started with no change. -/
theorem visitLoopBodyGo_changed_latch {M C : Type} (ops : FpOps M C)
    (transfer : Nat → Nat → (Nat → FpEnv M C) → FpEnv M C)
    (dominates : Nat → Nat → Bool) (anchor iteration : Nat)
    (oldState : Nat → FpEnv M C) (l : List Nat) (changed0 : Bool)
    (last0 : Nat) (st : LoopState M C)
    (h : (visitLoopBodyGo ops transfer dominates anchor iteration oldState l
      changed0 last0 st).1 = false) : changed0 = false := by
  induction l generalizing changed0 last0 st with
  | nil => exact h
  | cons bb rest ih =>
    rw [visitLoopBodyGo] at h
    by_cases hc : (!st.alreadyVisited.contains bb && dominates anchor bb) = true
    · rw [if_pos hc] at h
      have := ih _ _ _ h
      by_cases hsub : (3 < iteration ∧
          !ops.subset ((visitBlockStep transfer anchor iteration bb
            st).outState bb) (oldState bb)) 
      · rw [if_pos hsub] at this
        exact absurd this (by simp)
      · rw [if_neg hsub] at this
        exact this
    · rw [if_neg hc] at h
      exact ih _ _ _ h

/-- A loop-body pass does not touch the incompleteness flag or the
diagnostics counter. -/
theorem visitLoopBodyGo_preserves_flags {M C : Type} (ops : FpOps M C)
    (transfer : Nat → Nat → (Nat → FpEnv M C) → FpEnv M C)
    (dominates : Nat → Nat → Bool) (anchor iteration : Nat)
    (oldState : Nat → FpEnv M C) (l : List Nat) (changed0 : Bool)
    (last0 : Nat) (st : LoopState M C) :
    ((visitLoopBodyGo ops transfer dominates anchor iteration oldState l
        changed0 last0 st).2.2.analysisIsIncomplete = st.analysisIsIncomplete)
    ∧ ((visitLoopBodyGo ops transfer dominates anchor iteration oldState l
        changed0 last0 st).2.2.diagnosticsCount = st.diagnosticsCount) := by
  induction l generalizing changed0 last0 st with
  | nil => exact ⟨rfl, rfl⟩
  | cons bb rest ih =>
    rw [visitLoopBodyGo]
    by_cases hc : (!st.alreadyVisited.contains bb && dominates anchor bb) = true
    · rw [if_pos hc]
      exact ih _ _ _
    · rw [if_neg hc]
      exact ih _ _ _

/-- When a loop-body pass past iteration 3 reports no change, the new
out-state of every block it visited is a subset of the out-state snapshot
taken at the start of the pass. -/
theorem visitLoopBodyGo_subset {M C : Type} (ops : FpOps M C)
    (transfer : Nat → Nat → (Nat → FpEnv M C) → FpEnv M C)
    (dominates : Nat → Nat → Bool) (anchor iteration : Nat)
    (oldState : Nat → FpEnv M C) (l : List Nat) (changed0 : Bool)
    (last0 : Nat) (st : LoopState M C)
    (hres : (visitLoopBodyGo ops transfer dominates anchor iteration oldState
      l changed0 last0 st).1 = false)
    (hiter : 3 < iteration) :
    ∀ bb ∈ l, st.alreadyVisited.contains bb = false →
      dominates anchor bb = true →
      ops.subset
        ((visitLoopBodyGo ops transfer dominates anchor iteration oldState l
          changed0 last0 st).2.2.outState bb)
        (oldState bb) = true := by
  induction l generalizing changed0 last0 st with
  | nil => intro bb h; cases h
  | cons b0 rest ih =>
    intro bb hmem hnv hdom
    by_cases hc : (!st.alreadyVisited.contains b0 && dominates anchor b0) = true
    · rw [visitLoopBodyGo, if_pos hc] at hres ⊢
      have hlatch := visitLoopBodyGo_changed_latch ops transfer dominates
        anchor iteration oldState rest _ _ _ hres
      have hsub0 : ops.subset
          ((visitBlockStep transfer anchor iteration b0 st).outState b0)
          (oldState b0) = true := by
        by_contra hns
        rw [Bool.not_eq_true] at hns
        rw [if_pos ⟨hiter, by rw [hns]; rfl⟩] at hlatch
        exact absurd hlatch (by simp)
      by_cases hbb : bb = b0
      · subst hbb
        have hcont : (visitBlockStep transfer anchor iteration bb
            st).alreadyVisited.contains bb = true := by
          simp [visitBlockStep, List.contains_cons]
        rw [(visitLoopBodyGo_preserves_visited ops transfer dominates anchor
          iteration oldState rest _ _ _ bb hcont).1]
        exact hsub0
      · rcases List.mem_cons.mp hmem with heq | hmem2
        · exact absurd heq hbb
        · have hnv1 : (visitBlockStep transfer anchor iteration b0
              st).alreadyVisited.contains bb = false := by
            simp only [visitBlockStep, List.contains_cons]
            rw [hnv]
            simp [hbb]
          exact ih _ _ _ hres bb hmem2 hnv1 hdom
    · rw [visitLoopBodyGo, if_neg hc] at hres ⊢
      rcases List.mem_cons.mp hmem with rfl | hmem2
      · exfalso
        rw [hnv, hdom] at hc
        simp at hc
      · exact ih _ _ _ hres bb hmem2 hnv hdom

/-- A `visit_loop_body` pass does not touch the incompleteness flag or the
diagnostics counter. -/
theorem visitLoopBody_preserves_flags {M C : Type} (ops : FpOps M C)
    (transfer : Nat → Nat → (Nat → FpEnv M C) → FpEnv M C)
    (dominates : Nat → Nat → Bool) (blocks : List Nat)
    (anchor iteration : Nat) (st : LoopState M C) :
    ((visitLoopBody ops transfer dominates blocks anchor iteration
        st).2.2.analysisIsIncomplete = st.analysisIsIncomplete)
    ∧ ((visitLoopBody ops transfer dominates blocks anchor iteration
        st).2.2.diagnosticsCount = st.diagnosticsCount) :=
  visitLoopBodyGo_preserves_flags ops transfer dominates anchor iteration
    st.outState blocks false anchor st

/-- The iteration loop of `compute_fixed_point` does not touch the
incompleteness flag or the diagnostics counter. -/
theorem computeFixedPointLoop_preserves_flags {M C : Type} (ops : FpOps M C)
    (transfer : Nat → Nat → (Nat → FpEnv M C) → FpEnv M C)
    (dominates : Nat → Nat → Bool) (blocks : List Nat)
    (anchor maxIter : Nat) (saved : List Nat) (fuel : Nat) :
    ∀ iteration st,
      ((computeFixedPointLoop ops transfer dominates blocks anchor maxIter
          saved fuel iteration st).state.analysisIsIncomplete
        = st.analysisIsIncomplete)
      ∧ ((computeFixedPointLoop ops transfer dominates blocks anchor maxIter
          saved fuel iteration st).state.diagnosticsCount
        = st.diagnosticsCount) := by
  induction fuel with
  | zero =>
    intro iteration st
    rw [computeFixedPointLoop]
    have hf := visitLoopBody_preserves_flags ops transfer dominates blocks
      anchor iteration { st with alreadyVisited := saved }
    split
    · exact hf
    · split
      · exact hf
      · exact hf
  | succ fuel ih =>
    intro iteration st
    rw [computeFixedPointLoop]
    have hf := visitLoopBody_preserves_flags ops transfer dominates blocks
      anchor iteration { st with alreadyVisited := saved }
    split
    · exact hf
    · split
      · obtain ⟨h1, h2⟩ := ih (iteration + 1)
          (visitLoopBody ops transfer dominates blocks anchor iteration
            { st with alreadyVisited := saved }).2.2
        exact ⟨h1.trans hf.1, h2.trans hf.2⟩
      · exact hf

/-- C1 (amended): `compute_fixed_point` never modifies the body visitor's
incompleteness flag; reaching the iteration limit while the last pass still
reported change emits exactly one fixed-point-limit diagnostic; and whenever
a loop-body pass past iteration 3 reports no change, the newly computed
out-state of every block visited in the loop body is a subset of the
out-state recorded before the pass. -/
theorem compute_fixed_point_properties {M C : Type} (ops : FpOps M C)
    (transfer : Nat → Nat → (Nat → FpEnv M C) → FpEnv M C)
    (dominates : Nat → Nat → Bool) (blocks : List Nat)
    (anchor maxIter : Nat) (st : LoopState M C) :
    ((computeFixedPoint ops transfer dominates blocks anchor maxIter
        st).state.analysisIsIncomplete = st.analysisIsIncomplete)
    ∧ ((computeFixedPoint ops transfer dominates blocks anchor maxIter
        st).state.diagnosticsCount
      = st.diagnosticsCount +
          (if maxIter ≤ (computeFixedPoint ops transfer dominates blocks
                anchor maxIter st).iterationCount
              ∧ (computeFixedPoint ops transfer dominates blocks anchor
                maxIter st).changed = true then 1 else 0))
    ∧ (∀ iteration (st0 : LoopState M C), 3 < iteration →
        (visitLoopBody ops transfer dominates blocks anchor iteration
          st0).1 = false →
        ∀ bb ∈ blocks, st0.alreadyVisited.contains bb = false →
          dominates anchor bb = true →
          ops.subset
            ((visitLoopBody ops transfer dominates blocks anchor iteration
              st0).2.2.outState bb)
            (st0.outState bb) = true) := by
  refine ⟨?_, ?_, ?_⟩
  · unfold computeFixedPoint bumpDiagnosticsIfLimit
    split
    · exact (computeFixedPointLoop_preserves_flags ops transfer dominates
        blocks anchor maxIter st.alreadyVisited maxIter 1 st).1
    · exact (computeFixedPointLoop_preserves_flags ops transfer dominates
        blocks anchor maxIter st.alreadyVisited maxIter 1 st).1
  · unfold computeFixedPoint bumpDiagnosticsIfLimit
    split
    next hcond =>
      simp [(computeFixedPointLoop_preserves_flags ops transfer dominates
        blocks anchor maxIter st.alreadyVisited maxIter 1 st).2]
    next hcond =>
      simp [(computeFixedPointLoop_preserves_flags ops transfer dominates
        blocks anchor maxIter st.alreadyVisited maxIter 1 st).2, hcond]
  · intro iteration st0 hiter hres bb hmem hnv hdom
    exact visitLoopBodyGo_subset ops transfer dominates anchor iteration
      st0.outState blocks false anchor st0 hres hiter bb hmem hnv hdom

/-- C1 counterexample: with an out-state that grows on every pass, the
fixed-point loop reaches the iteration limit (6) with the last pass still
reporting change, yet `analysis_is_incomplete` remains false (a diagnostic
is emitted instead). -/
theorem compute_fixed_point_flag_counterexample :
    ((computeFixedPoint fpUnitOps fpGrowTransfer (fun _ _ => true) [0] 0 6
        fpInitState).changed = true)
    ∧ (6 ≤ (computeFixedPoint fpUnitOps fpGrowTransfer (fun _ _ => true) [0]
        0 6 fpInitState).iterationCount)
    ∧ ((computeFixedPoint fpUnitOps fpGrowTransfer (fun _ _ => true) [0] 0 6
        fpInitState).state.analysisIsIncomplete = false)
    ∧ ((computeFixedPoint fpUnitOps fpGrowTransfer (fun _ _ => true) [0] 0 6
        fpInitState).state.diagnosticsCount = 1) := by
  decide

/-- C1 witness: the amended theorem applied to the stable transfer, for
which a pass at iteration 5 reports no change and the out-state of the
visited block 0 is a subset of the previously recorded one. -/
theorem compute_fixed_point_properties_witness :
    (3 < 5
      ∧ (visitLoopBody fpUnitOps fpStableTransfer (fun _ _ => true) [0] 0 5
          fpInitState).1 = false)
    ∧ fpUnitOps.subset
        ((visitLoopBody fpUnitOps fpStableTransfer (fun _ _ => true) [0] 0 5
          fpInitState).2.2.outState 0)
        (fpInitState.outState 0) = true :=
  ⟨⟨by decide, by decide⟩,
    (compute_fixed_point_properties fpUnitOps fpStableTransfer
        (fun _ _ => true) [0] 0 6 fpInitState).2.2 5 fpInitState (by decide)
      (by decide) 0 (by decide) (by decide) (by decide)⟩

theorem two_pow_pos (k : Nat) : 0 < 2 ^ k := Nat.pos_pow_of_pos k (by omega)

theorem packFields_lt (srcs : List (Nat × Nat)) :
    packFields srcs < 2 ^ totalWidth srcs := by
  induction srcs with
  | nil => simp [packFields, totalWidth]
  | cons hd rest ih =>
    obtain ⟨v, w⟩ := hd
    simp only [packFields, totalWidth]
    have h1 : v % 2 ^ w < 2 ^ w := Nat.mod_lt _ (two_pow_pos w)
    calc v % 2 ^ w + 2 ^ w * packFields rest
        < 2 ^ w + 2 ^ w * packFields rest := by omega
      _ = 2 ^ w * (packFields rest + 1) := by ring
      _ ≤ 2 ^ w * 2 ^ totalWidth rest := by
          have := ih
          exact Nat.mul_le_mul_left _ (by omega)
      _ = 2 ^ (w + totalWidth rest) := by rw [pow_add]

theorem specDrop_zero (srcs : List (Nat × Nat))
    (hpos : ∀ e ∈ srcs, 0 < e.2) : specDrop srcs 0 = srcs := by
  cases srcs with
  | nil => rfl
  | cons hd rest =>
    obtain ⟨v, w⟩ := hd
    have hw : 0 < w := hpos (v, w) (List.mem_cons_self _ _)
    simp [specDrop, hw]

theorem packFields_cons_fit (v w : Nat) (rest : List (Nat × Nat))
    (hv : v < 2 ^ w) :
    packFields ((v, w) :: rest) = v + 2 ^ w * packFields rest := by
  simp [packFields, Nat.mod_eq_of_lt hv]

theorem div_lt_pow_sub (v w n : Nat) (hv : v < 2 ^ w) (hn : n ≤ w) :
    v / 2 ^ n < 2 ^ (w - n) := by
  rw [Nat.div_lt_iff_lt_mul (two_pow_pos n), ← pow_add]
  rw [Nat.sub_add_cancel hn]
  exact hv

theorem specDrop_fit (srcs : List (Nat × Nat))
    (hfit : ∀ e ∈ srcs, e.1 < 2 ^ e.2) (n : Nat) :
    ∀ e ∈ specDrop srcs n, e.1 < 2 ^ e.2 := by
  induction srcs generalizing n with
  | nil => simp [specDrop]
  | cons hd rest ih =>
    obtain ⟨v, w⟩ := hd
    simp only [specDrop]
    split
    next h =>
      intro e he
      rcases List.mem_cons.mp he with rfl | he2
      · exact div_lt_pow_sub v w n (hfit (v, w) (List.mem_cons_self _ _))
          (by omega)
      · exact hfit e (List.mem_cons_of_mem _ he2)
    next h =>
      exact ih (fun e he => hfit e (List.mem_cons_of_mem _ he)) (n - w)

theorem specDrop_pos (srcs : List (Nat × Nat))
    (hpos : ∀ e ∈ srcs, 0 < e.2) (n : Nat) :
    ∀ e ∈ specDrop srcs n, 0 < e.2 := by
  induction srcs generalizing n with
  | nil => simp [specDrop]
  | cons hd rest ih =>
    obtain ⟨v, w⟩ := hd
    simp only [specDrop]
    split
    next h =>
      intro e he
      rcases List.mem_cons.mp he with rfl | he2
      · simpa using Nat.sub_pos_of_lt h
      · exact hpos e (List.mem_cons_of_mem _ he2)
    next h =>
      exact ih (fun e he => hpos e (List.mem_cons_of_mem _ he)) (n - w)

theorem packFields_specDrop (srcs : List (Nat × Nat))
    (hfit : ∀ e ∈ srcs, e.1 < 2 ^ e.2) (n : Nat) :
    packFields (specDrop srcs n) = packFields srcs / 2 ^ n := by
  induction srcs generalizing n with
  | nil => simp [specDrop, packFields]
  | cons hd rest ih =>
    obtain ⟨v, w⟩ := hd
    have hv : v < 2 ^ w := hfit (v, w) (List.mem_cons_self _ _)
    have hrest : ∀ e ∈ rest, e.1 < 2 ^ e.2 :=
      fun e he => hfit e (List.mem_cons_of_mem _ he)
    simp only [specDrop]
    split
    next h =>
      rw [packFields_cons_fit v w rest hv,
        packFields_cons_fit (v / 2 ^ n) (w - n) rest
          (div_lt_pow_sub v w n hv (by omega))]
      have hsplit : 2 ^ w * packFields rest
          = 2 ^ n * (2 ^ (w - n) * packFields rest) := by
        rw [← mul_assoc, ← pow_add]
        congr 2
        omega
      rw [hsplit, Nat.add_mul_div_left _ _ (two_pow_pos n)]
    next h =>
      rw [ih hrest (n - w), packFields_cons_fit v w rest hv]
      rw [show (2 : Nat) ^ n = 2 ^ w * 2 ^ (n - w) by
        rw [← pow_add]
        congr 1
        omega]
      rw [← Nat.div_div_eq_div_mul]
      congr 1
      rw [mul_comm, Nat.add_mul_div_right _ _ (two_pow_pos w),
        Nat.div_eq_of_lt hv]
      omega

theorem totalWidth_specDrop (srcs : List (Nat × Nat)) (n : Nat)
    (h : n ≤ totalWidth srcs) :
    totalWidth (specDrop srcs n) = totalWidth srcs - n := by
  induction srcs generalizing n with
  | nil => simp [specDrop, totalWidth]
  | cons hd rest ih =>
    obtain ⟨v, w⟩ := hd
    simp only [specDrop, totalWidth] at h ⊢
    split
    next hlt => simp only [totalWidth]; omega
    next hge =>
      rw [ih (n - w) (by omega)]
      omega

theorem add_pow_mul_lt (a b m k : Nat) (ha : a < 2 ^ m) (hb : b < 2 ^ k) :
    a + 2 ^ m * b < 2 ^ (m + k) := by
  have h1 : b + 1 ≤ 2 ^ k := hb
  calc a + 2 ^ m * b < 2 ^ m + 2 ^ m * b := by omega
    _ = 2 ^ m * (b + 1) := by ring
    _ ≤ 2 ^ m * 2 ^ k := Nat.mul_le_mul_left _ h1
    _ = 2 ^ (m + k) := by rw [pow_add]

theorem add_pow_mul_mod (a b m k : Nat) (ha : a < 2 ^ m) :
    (a + 2 ^ m * b) % 2 ^ (m + k) = a + 2 ^ m * (b % 2 ^ k) := by
  have hb := Nat.div_add_mod b (2 ^ k)
  have hx : a + 2 ^ m * b
      = (a + 2 ^ m * (b % 2 ^ k)) + (b / 2 ^ k) * (2 ^ m * 2 ^ k) := by
    conv_lhs => rw [← hb]
    ring
  rw [pow_add, hx, Nat.add_mul_mod_self_right]
  rw [← pow_add]
  exact Nat.mod_eq_of_lt (add_pow_mul_lt a (b % 2 ^ k) m k ha
    (Nat.mod_lt _ (two_pow_pos k)))

theorem add_pow_mul_div (a b m : Nat) (ha : a < 2 ^ m) :
    (a + 2 ^ m * b) / 2 ^ m = b := by
  rw [mul_comm, Nat.add_mul_div_right _ _ (two_pow_pos m),
    Nat.div_eq_of_lt ha]
  omega

theorem mod_pow_mod (a m n : Nat) (h : n ≤ m) :
    a % 2 ^ m % 2 ^ n = a % 2 ^ n := by
  have : (2 : Nat) ^ n ∣ 2 ^ m := pow_dvd_pow 2 h
  exact Nat.mod_mod_of_dvd a this

theorem add_pow_mul_mod_le (a b m n : Nat) (h : n ≤ m) :
    (a + 2 ^ m * b) % 2 ^ n = a % 2 ^ n := by
  rw [show (2 : Nat) ^ m = 2 ^ n * 2 ^ (m - n) by
    rw [← pow_add]
    congr 1
    omega]
  rw [mul_assoc]
  exact Nat.add_mul_mod_self_left a (2 ^ n) (2 ^ (m - n) * b)

theorem copyFieldBitsMulti_spec (srcs : List (Nat × Nat))
    (hfit : ∀ e ∈ srcs, e.1 < 2 ^ e.2) (hpos : ∀ e ∈ srcs, 0 < e.2) :
    ∀ (val written tbw tid tw : Nat) (tgts : List (Nat × Nat)),
      val < 2 ^ written → 0 < tbw → tw = written + tbw →
      (totalWidth srcs < tbw →
        copyFieldBitsMulti srcs val written tbw tid tw tgts = ([], true))
      ∧ (tbw ≤ totalWidth srcs →
          ∃ srcs2 copied2,
            copyFieldBitsMulti srcs val written tbw tid tw tgts
              = ((tid, val + 2 ^ written * (packFields srcs % 2 ^ tbw))
                  :: (copyFieldBitsGo srcs2 copied2 tgts).1,
                 (copyFieldBitsGo srcs2 copied2 tgts).2)
            ∧ (∀ e ∈ srcs2, e.1 < 2 ^ e.2)
            ∧ (∀ e ∈ srcs2, 0 < e.2)
            ∧ (copied2 = 0 ∨ ∃ v w rest2, srcs2 = (v, w) :: rest2 ∧ copied2 < w)
            ∧ specDrop srcs2 copied2 = specDrop srcs tbw
            ∧ totalWidth srcs2 - copied2 = totalWidth srcs - tbw) := by
  induction srcs with
  | nil =>
    intro val written tbw tid tw tgts hval htbw htw
    constructor
    · intro _
      simp only [copyFieldBitsMulti]
    · intro hle
      exfalso
      simp [totalWidth] at hle
      omega
  | cons hd rest ih =>
    obtain ⟨sv, sw⟩ := hd
    intro val written tbw tid tw tgts hval htbw htw
    have hsv : sv < 2 ^ sw := hfit _ (List.mem_cons_self _ _)
    have hsw : 0 < sw := hpos _ (List.mem_cons_self _ _)
    have hfitR : ∀ e ∈ rest, e.1 < 2 ^ e.2 :=
      fun e he => hfit e (List.mem_cons_of_mem _ he)
    have hposR : ∀ e ∈ rest, 0 < e.2 :=
      fun e he => hpos e (List.mem_cons_of_mem _ he)
    simp only [copyFieldBitsMulti, unsignedShiftLeft, unsignedModulo,
      transmuteToWidth]
    by_cases hA : tbw ≤ sw
    · rw [if_pos hA]
      have hpackmod : packFields ((sv, sw) :: rest) % 2 ^ tbw = sv % 2 ^ tbw := by
        rw [packFields_cons_fit sv sw rest hsv, add_pow_mul_mod_le sv _ sw tbw hA]
      have hassigned : (sv % 2 ^ tbw * 2 ^ written + val) % 2 ^ tw
          = val + 2 ^ written * (packFields ((sv, sw) :: rest) % 2 ^ tbw) := by
        rw [hpackmod]
        have hlt : val + 2 ^ written * (sv % 2 ^ tbw) < 2 ^ tw := by
          rw [htw]
          exact add_pow_mul_lt val (sv % 2 ^ tbw) written tbw hval
            (Nat.mod_lt _ (two_pow_pos tbw))
        rw [show sv % 2 ^ tbw * 2 ^ written + val
            = val + 2 ^ written * (sv % 2 ^ tbw) by ring]
        exact Nat.mod_eq_of_lt hlt
      by_cases hB : sw = tbw
      · rw [if_pos hB]
        refine ⟨fun hcon => ?_, fun hle => ?_⟩
        · exfalso
          simp [totalWidth] at hcon
          omega
        · refine ⟨rest, 0, ?_, hfitR, hposR, Or.inl rfl, ?_, ?_⟩
          · rw [hassigned]
          · rw [specDrop_zero rest hposR]
            simp only [specDrop]
            rw [if_neg (by omega)]
            rw [show tbw - sw = 0 by omega, specDrop_zero rest hposR]
          · simp [totalWidth]
            omega
      · rw [if_neg hB]
        refine ⟨fun hcon => ?_, fun hle => ?_⟩
        · exfalso
          simp [totalWidth] at hcon
          omega
        · refine ⟨(sv, sw) :: rest, tbw, ?_, hfit, hpos,
            Or.inr ⟨sv, sw, rest, rfl, by omega⟩, rfl, rfl⟩
          rw [hassigned]
    · rw [if_neg hA]
      have hsvtbw : sv % 2 ^ tbw = sv :=
        Nat.mod_eq_of_lt (lt_of_lt_of_le hsv
          (Nat.pow_le_pow_right (by omega) (by omega)))
      have hval2 : sv % 2 ^ tbw * 2 ^ written + val < 2 ^ (written + sw) := by
        rw [hsvtbw, show sv * 2 ^ written + val = val + 2 ^ written * sv by ring]
        exact add_pow_mul_lt val sv written sw hval hsv
      obtain ⟨ih1, ih2⟩ := ih hfitR hposR (sv % 2 ^ tbw * 2 ^ written + val)
        (written + sw) (tbw - sw) tid tw tgts hval2 (by omega) (by omega)
      constructor
      · intro hcon
        apply ih1
        simp only [totalWidth] at hcon
        omega
      · intro hle
        obtain ⟨srcs2, copied2, heq, hf2, hp2, hinv2, hdrop2, htot2⟩ :=
          ih2 (by simp only [totalWidth] at hle; omega)
        refine ⟨srcs2, copied2, ?_, hf2, hp2, hinv2, ?_, ?_⟩
        · rw [heq]
          have hmod : (sv + 2 ^ sw * packFields rest) % 2 ^ tbw
              = sv + 2 ^ sw * (packFields rest % 2 ^ (tbw - sw)) := by
            conv_lhs => rw [show tbw = sw + (tbw - sw) by omega]
            exact add_pow_mul_mod sv (packFields rest) sw (tbw - sw) hsv
          have hvalue : sv % 2 ^ tbw * 2 ^ written + val
              + 2 ^ (written + sw) * (packFields rest % 2 ^ (tbw - sw))
              = val + 2 ^ written * (packFields ((sv, sw) :: rest) % 2 ^ tbw) := by
            rw [hsvtbw, packFields_cons_fit sv sw rest hsv, hmod, pow_add]
            ring
          rw [hvalue]
        · rw [hdrop2]
          simp only [specDrop]
          rw [if_neg (by omega)]
        · rw [htot2]
          simp only [totalWidth]
          omega

theorem copyFieldBitsGo_eq_specSplit (tgts : List (Nat × Nat)) :
    ∀ (srcs : List (Nat × Nat)) (copied : Nat),
      (∀ e ∈ srcs, e.1 < 2 ^ e.2) → (∀ e ∈ srcs, 0 < e.2) →
      (∀ e ∈ tgts, 0 < e.2) →
      (copied = 0 ∨ ∃ v w rest, srcs = (v, w) :: rest ∧ copied < w) →
      copyFieldBitsGo srcs copied tgts
        = specSplit (packFields (specDrop srcs copied))
            (totalWidth srcs - copied) tgts := by
  induction tgts with
  | nil =>
    intro srcs copied hfit hpos hposT hcop
    cases srcs <;> simp only [copyFieldBitsGo, specSplit]
  | cons tgt tgts ihT =>
    obtain ⟨tid, tw⟩ := tgt
    intro srcs copied hfit hpos hposT hcop
    have htw : 0 < tw := hposT (tid, tw) (List.mem_cons_self _ _)
    have hposT2 : ∀ e ∈ tgts, 0 < e.2 :=
      fun e he => hposT e (List.mem_cons_of_mem _ he)
    cases srcs with
    | nil =>
      simp only [copyFieldBitsGo, specDrop, packFields, totalWidth, specSplit]
      rw [if_neg (by omega)]
    | cons hd rest =>
      obtain ⟨sv, sw⟩ := hd
      have hsv : sv < 2 ^ sw := hfit _ (List.mem_cons_self _ _)
      have hsw : 0 < sw := hpos _ (List.mem_cons_self _ _)
      have hfitR : ∀ e ∈ rest, e.1 < 2 ^ e.2 :=
        fun e he => hfit e (List.mem_cons_of_mem _ he)
      have hposR : ∀ e ∈ rest, 0 < e.2 :=
        fun e he => hpos e (List.mem_cons_of_mem _ he)
      have hlt : copied < sw := by
        rcases hcop with rfl | ⟨v, w, r, heq, h⟩
        · omega
        · obtain ⟨h1, h2⟩ := Prod.mk.injEq _ _ _ _ ▸ (List.cons.injEq _ _ _ _ ▸ heq)
          cases h1
          omega
      clear hcop
      have hdfit : sv / 2 ^ copied < 2 ^ (sw - copied) :=
        div_lt_pow_sub sv sw copied hsv (by omega)
      have hdropC : specDrop ((sv, sw) :: rest) copied
          = (sv / 2 ^ copied, sw - copied) :: rest := by
        simp [specDrop, hlt]
      have hpackC : packFields (specDrop ((sv, sw) :: rest) copied)
          = sv / 2 ^ copied + 2 ^ (sw - copied) * packFields rest := by
        rw [hdropC, packFields_cons_fit _ _ _ hdfit]
      have havail : totalWidth ((sv, sw) :: rest) - copied
          = (sw - copied) + totalWidth rest := by
        simp only [totalWidth]
        omega
      simp only [copyFieldBitsGo, unsignedShiftRight, unsignedModulo]
      by_cases hb1 : copied = 0 ∧ sw = tw
      · rw [if_pos hb1]
        obtain ⟨hc0, hswtw⟩ := hb1
        subst hc0
        simp only [specSplit]
        rw [if_pos (by simp only [totalWidth]; omega)]
        rw [hpackC]
        simp only [pow_zero, Nat.div_one, Nat.sub_zero]
        have hmod : (sv + 2 ^ sw * packFields rest) % 2 ^ tw = sv := by
          rw [add_pow_mul_mod_le sv _ sw tw (by omega),
            Nat.mod_eq_of_lt (by rw [← hswtw]; exact hsv)]
        have hdiv : (sv + 2 ^ sw * packFields rest) / 2 ^ tw
            = packFields rest := by
          rw [← hswtw]
          exact add_pow_mul_div sv _ sw hsv
        rw [hmod, hdiv, ihT rest 0 hfitR hposR hposT2 (Or.inl rfl),
          specDrop_zero rest hposR]
        rw [show totalWidth ((sv, sw) :: rest) - tw
          = totalWidth rest - 0 by simp only [totalWidth]; omega]
      · rw [if_neg hb1]
        by_cases hb2 : tw ≤ sw - copied
        · rw [if_pos hb2]
          simp only [specSplit]
          have hcond2 : tw ≤ totalWidth ((sv, sw) :: rest) - copied := by
            rw [havail]
            omega
          rw [if_pos hcond2, hpackC]
          have hassign : (if tw < sw - copied
                then sv / 2 ^ copied % 2 ^ tw else sv / 2 ^ copied)
              = (sv / 2 ^ copied + 2 ^ (sw - copied) * packFields rest)
                  % 2 ^ tw := by
            rw [add_pow_mul_mod_le _ _ (sw - copied) tw hb2]
            by_cases hb3 : tw < sw - copied
            · rw [if_pos hb3]
            · rw [if_neg hb3, Nat.mod_eq_of_lt (by
                rw [show tw = sw - copied by omega]
                exact hdfit)]
          rw [← hassign]
          by_cases hb4 : copied + tw = sw
          · rw [if_pos hb4]
            have hdiv : (sv / 2 ^ copied + 2 ^ (sw - copied) * packFields rest)
                / 2 ^ tw = packFields rest := by
              rw [show sw - copied = tw by omega]
              exact add_pow_mul_div _ _ tw (by
                rw [show tw = sw - copied by omega]
                exact hdfit)
            rw [hdiv, ihT rest 0 hfitR hposR hposT2 (Or.inl rfl),
              specDrop_zero rest hposR]
            rw [show totalWidth ((sv, sw) :: rest) - copied - tw
              = totalWidth rest - 0 by simp only [totalWidth]; omega]
          · rw [if_neg hb4]
            rw [ihT ((sv, sw) :: rest) (copied + tw) hfit hpos hposT2
              (Or.inr ⟨sv, sw, rest, rfl, by omega⟩)]
            have hpackN : packFields (specDrop ((sv, sw) :: rest) (copied + tw))
                = (sv / 2 ^ copied + 2 ^ (sw - copied) * packFields rest)
                    / 2 ^ tw := by
              rw [packFields_specDrop _ hfit (copied + tw), ← hpackC,
                packFields_specDrop _ hfit copied]
              rw [Nat.div_div_eq_div_mul, ← pow_add]
            rw [hpackN]
            rw [show totalWidth ((sv, sw) :: rest) - (copied + tw)
              = totalWidth ((sv, sw) :: rest) - copied - tw by omega]
        · rw [if_neg hb2]
          have hb2x : sw - copied < tw := by omega
          have hmod0 : sv / 2 ^ copied % 2 ^ (sw - copied) = sv / 2 ^ copied :=
            Nat.mod_eq_of_lt hdfit
          obtain ⟨hm1, hm2⟩ := copyFieldBitsMulti_spec rest hfitR hposR
            (sv / 2 ^ copied % 2 ^ (sw - copied)) (sw - copied)
            (tw - (sw - copied)) tid tw tgts
            (by rw [hmod0]; exact hdfit) (by omega) (by omega)
          by_cases hb5 : totalWidth rest < tw - (sw - copied)
          · rw [hm1 hb5]
            simp only [specSplit]
            have hcneg : ¬ tw ≤ totalWidth ((sv, sw) :: rest) - copied := by
              rw [havail]
              omega
            rw [if_neg hcneg]
          · have hb5x : tw - (sw - copied) ≤ totalWidth rest := by omega
            have hcpos : tw ≤ totalWidth ((sv, sw) :: rest) - copied := by
              rw [havail]
              omega
            have htwsplit : tw = (sw - copied) + (tw - (sw - copied)) := by
              omega
            have htotfin : totalWidth rest - (tw - (sw - copied))
                = totalWidth ((sv, sw) :: rest) - copied - tw := by
              clear hm1 hm2
              simp only [totalWidth]
              omega
            obtain ⟨srcs2, copied2, heq, hf2, hp2, hinv2, hdrop2, htot2⟩ :=
              hm2 hb5x
            rw [heq]
            simp only [specSplit]
            rw [if_pos hcpos, hpackC]
            have hassign : sv / 2 ^ copied % 2 ^ (sw - copied)
                + 2 ^ (sw - copied)
                    * (packFields rest % 2 ^ (tw - (sw - copied)))
                = (sv / 2 ^ copied + 2 ^ (sw - copied) * packFields rest)
                    % 2 ^ tw := by
              rw [hmod0]
              conv_rhs => rw [htwsplit]
              rw [add_pow_mul_mod _ _ _ _ hdfit]
            rw [hassign]
            rw [ihT srcs2 copied2 hf2 hp2 hposT2 hinv2, hdrop2, htot2]
            have hdivN : packFields (specDrop rest (tw - (sw - copied)))
                = (sv / 2 ^ copied + 2 ^ (sw - copied) * packFields rest)
                    / 2 ^ tw := by
              rw [packFields_specDrop rest hfitR]
              conv_rhs => rw [htwsplit]
              rw [pow_add, ← Nat.div_div_eq_div_mul]
              rw [add_pow_mul_div _ _ _ hdfit]
            rw [hdivN]
            rw [htotfin]

lemma specSplit_snd (tgts : List (Nat × Nat)) :
    ∀ (pack avail : Nat),
      (specSplit pack avail tgts).2 = decide (avail < totalWidth tgts) := by
  induction tgts with
  | nil =>
    intro pack avail
    simp [specSplit, totalWidth]
  | cons tgt tgts ih =>
    obtain ⟨tid, tw⟩ := tgt
    intro pack avail
    simp only [specSplit, totalWidth]
    by_cases h : tw ≤ avail
    · rw [if_pos h]
      simp only [ih, decide_eq_decide]
      omega
    · rw [if_neg h]
      have hx : avail < tw + totalWidth tgts := by omega
      simp [hx]

/-- C3: an assignment of value `vals` through union field `caseIndex` strongly
updates every sibling field `i` of the union with the byte-exact (bit-for-bit,
little-endian) transmutation of the source value to the sibling's flattened
leaf widths, and the `union is not fully initialized` warning is emitted for a
sibling exactly when the source fields supply fewer bits than that sibling's
leaf fields require. -/
theorem union_field_assignment (fields : List (List Nat)) (caseIndex : Nat)
    (vals : List Nat)
    (hfit : ∀ e ∈ vals.zip (fields.getD caseIndex []), e.1 < 2 ^ e.2)
    (hposS : ∀ e ∈ vals.zip (fields.getD caseIndex []), 0 < e.2)
    (hposT : ∀ f ∈ fields, ∀ w ∈ f, 0 < w) :
    ∀ i, i < fields.length →
      (updateValueAtUnionField fields caseIndex vals).getD i ([], false)
        = specTransmute (vals.zip (fields.getD caseIndex []))
            (enumWidths (fields.getD i []))
      ∧ ((updateValueAtUnionField fields caseIndex vals).getD i ([], false)).2
        = decide (totalWidth (vals.zip (fields.getD caseIndex []))
            < totalWidth (enumWidths (fields.getD i []))) := by
  intro i hi
  have hget : (updateValueAtUnionField fields caseIndex vals).getD i ([], false)
      = copyFieldBits (vals.zip (fields.getD caseIndex []))
          (enumWidths (fields.getD i [])) := by
    simp [updateValueAtUnionField, List.getD_eq_getElem?_getD,
      List.getElem?_map, List.getElem?_range, hi]
  have hmemi : fields.getD i [] ∈ fields := by
    rw [List.getD_eq_getElem?_getD, List.getElem?_eq_getElem hi]
    simp only [Option.getD_some]
    exact List.getElem_mem hi
  have hposT2 : ∀ e ∈ enumWidths (fields.getD i []), 0 < e.2 := by
    intro e he
    obtain ⟨x, y⟩ := e
    simp only [enumWidths] at he
    exact hposT _ hmemi y (List.of_mem_zip he).2
  have hmain := copyFieldBitsGo_eq_specSplit (enumWidths (fields.getD i []))
    (vals.zip (fields.getD caseIndex [])) 0 hfit hposS hposT2 (Or.inl rfl)
  rw [hget]
  constructor
  · rw [copyFieldBits, hmain, specDrop_zero _ hposS, Nat.sub_zero,
      specTransmute]
  · rw [copyFieldBits, hmain, Nat.sub_zero, specSplit_snd]

/-- C3 witness: the claim applied to a three-field union `{ u16, (u8, u8),
u8 }` assigned `0xCDAB` through field 0, looking at sibling 1. -/
theorem union_field_assignment_witness :
    (updateValueAtUnionField [[16], [8, 8], [8]] 0 [52651]).getD 1 ([], false)
      = specTransmute ([52651].zip ([[16], [8, 8], [8]].getD 0 []))
          (enumWidths ([[16], [8, 8], [8]].getD 1 []))
    ∧ ((updateValueAtUnionField [[16], [8, 8], [8]] 0 [52651]).getD 1
        ([], false)).2
      = decide (totalWidth ([52651].zip ([[16], [8, 8], [8]].getD 0 []))
          < totalWidth (enumWidths ([[16], [8, 8], [8]].getD 1 []))) :=
  union_field_assignment [[16], [8, 8], [8]] 0 [52651]
    (by decide) (by decide) (by decide) 1 (by decide)
